import Mathlib

/-!
# hyperlink: the ephemeral message store

A shallow embedding of the storage packages of `rogst/hyperlink`
(`pkg/message`, `pkg/message/memory`, `pkg/message/redis`,
`pkg/message/storage` and the submit path of `pkg/api`), followed by the
theorems that settle the numbered claims of the specification.

Conventions of the embedding

* a Go `string` is its sequence of bytes (`GoString`), so that non-UTF-8
  contents are representable; `str` turns an ASCII/UTF-8 literal of the source
  into its bytes;
* an `error` is `none` for `nil` and `some text` for a non-nil error carrying
  the formatted text;
* a Go `map[string]V` is a finite map with unique keys (`GoMap V`);
* a pointer receiver that is mutated under the mutex becomes explicit state
  passing: an operation takes the client and returns the client afterwards;
  the mutex makes each operation atomic, so one function application is one
  linearised call;
* the wall clock is a parameter `now` of every operation that reads it;
* `time.Time` is an instant counted in nanoseconds from the Unix epoch and
  `time.Duration` is a 64-bit signed count of nanoseconds.
-/

set_option autoImplicit false

namespace hyperlink

/-! ## Go base types -/

/-- A Go `byte`. -/
abbrev Byte := UInt8

/-- A Go `string`: an immutable sequence of bytes, not necessarily UTF-8. -/
abbrev GoString := List Byte

/-- The bytes of a string literal of the source (UTF-8 encoded, as the Go
compiler stores it). -/
def str (s : String) : GoString := s.toUTF8.data.toList

/-- A Go `error` value: `none` is `nil`, `some text` an error with that text. -/
abbrev error := Option GoString

/-- A Go `map[string]V`. -/
abbrev GoMap (V : Type) := AList (fun _ : GoString => V)

/-- A `time.Duration`: a signed 64-bit count of nanoseconds. -/
structure Duration where
  ns : Int
  inRange : -9223372036854775808 ≤ ns ∧ ns ≤ 9223372036854775807
deriving DecidableEq

/-- A `time.Time`, reduced to the instant it denotes: nanoseconds elapsed
since January 1, 1970 UTC (negative before). The location and the monotonic
reading do not take part in any comparison made by the code embedded here. -/
structure Time where
  unixNano : Int
deriving DecidableEq

/-- Seconds from January 1, year 1 to the Unix epoch (`unixToInternal`). -/
def unixToInternal : Int := 62135596800

/-- The zero `time.Time{}`: January 1, year 1, 00:00:00 UTC. -/
def Time.zero : Time := ⟨-62135596800000000000⟩

instance : Inhabited Time := ⟨Time.zero⟩

/-- The method `t.Sub(u)`: the duration `t - u`, and the maximum (or minimum)
duration when `t - u` does not fit in a `Duration`. -/
def Time.Sub (t u : Time) : Duration :=
  if h1 : t.unixNano - u.unixNano < -9223372036854775808 then
    ⟨-9223372036854775808, by decide⟩
  else if h2 : 9223372036854775807 < t.unixNano - u.unixNano then
    ⟨9223372036854775807, by decide⟩
  else
    ⟨t.unixNano - u.unixNano, by omega⟩

/-- The method `t.Add(d)`: the instant `d` after `t` (exact on the time line;
the bound of the internal seconds, some 292 billion years away, is left out). -/
def Time.Add (t : Time) (d : Duration) : Time := ⟨t.unixNano + d.ns⟩

/-- The function `time.Since(t)`, that is `time.Now().Sub(t)`, with the clock
reading `now` made explicit. -/
def time.Since (now t : Time) : Duration := now.Sub t

/-- A 64-bit signed integer after wrap-around (two's complement). -/
def wrapInt64 (x : Int) : Int :=
  (x + 9223372036854775808) % 18446744073709551616 - 9223372036854775808

/-- The method `t.Unix()`: whole seconds since the Unix epoch, computed as the
internal seconds plus `internalToUnix` in `int64` arithmetic. -/
def Time.Unix (t : Time) : Int := wrapInt64 (t.unixNano / 1000000000)

/-- The function `time.Unix(sec, nsec)`: the instant `sec` seconds and `nsec`
nanoseconds after the Unix epoch. An `nsec` outside `[0, 999999999]` is first
carried into `sec`; the internal seconds `sec + unixToInternal` are an `int64`. -/
def time.Unix (sec nsec : Int) : Time :=
  let n := Int.tdiv nsec 1000000000
  let carried : Bool := nsec < 0 || nsec ≥ 1000000000
  let sec1 := if carried then wrapInt64 (sec + n) else sec
  let nsec1 := if carried then nsec - n * 1000000000 else nsec
  let sec2 := if carried && nsec1 < 0 then wrapInt64 (sec1 - 1) else sec1
  let nsec2 := if carried && nsec1 < 0 then nsec1 + 1000000000 else nsec1
  ⟨(wrapInt64 (sec2 + unixToInternal) - unixToInternal) * 1000000000 + nsec2⟩

/-- The instants a `time.Time` can hold: the internal count of seconds (from
January 1, year 1) is an `int64`. -/
def Time.valid (t : Time) : Prop :=
  -9223372036854775808 ≤ t.unixNano / 1000000000 + unixToInternal ∧
  t.unixNano / 1000000000 + unixToInternal ≤ 9223372036854775807

instance (t : Time) : Decidable t.valid := by
  unfold Time.valid; exact inferInstance

/-! ## Package `strconv` and `strings` (standard library, as documented) -/

/-- The two kinds of `strconv.NumError`. -/
inductive NumError where
  | ErrSyntax
  | ErrRange
deriving DecidableEq

/-- The byte of the decimal digit `d`. -/
def digitByte (d : Nat) : Byte := UInt8.ofNat (48 + d)

/-- The decimal digits of `n`, most significant first (the digit loop of
`strconv.FormatInt` in base 10). `fuel` bounds the number of digits. -/
def formatUint : Nat → Nat → GoString
  | 0, _ => []
  | fuel + 1, n =>
    if n < 10 then [digitByte n]
    else formatUint fuel (n / 10) ++ [digitByte (n % 10)]

/-- The function `strconv.FormatInt(i, 10)` for an `int64` value `i` (at most
19 digits after the sign). -/
def FormatInt (i : Int) : GoString :=
  if i < 0 then 45 :: formatUint 20 (-i).toNat else formatUint 20 i.toNat

/-- The digit loop of `strconv.ParseUint(s, 10, 64)` started with the value
`n`: a byte that is no decimal digit ends it with a syntax error and value 0,
an overflow of `uint64` with a range error and the maximum value. -/
def parseUintLoop : GoString → Nat → Nat × Option NumError
  | [], n => (n, none)
  | c :: rest, n =>
    if 48 ≤ c.toNat ∧ c.toNat ≤ 57 then
      if n ≥ 1844674407370955162 then (18446744073709551615, some .ErrRange)
      else if n * 10 + (c.toNat - 48) > 18446744073709551615 then
        (18446744073709551615, some .ErrRange)
      else parseUintLoop rest (n * 10 + (c.toNat - 48))
    else (0, some .ErrSyntax)

/-- The function `strconv.ParseUint(s, 10, 64)`. -/
def ParseUint (s : GoString) : Nat × Option NumError :=
  if s = [] then (0, some .ErrSyntax) else parseUintLoop s 0

/-- The function `strconv.Atoi(s)` with a 64-bit `int`: `ParseInt(s, 10, 0)`
(the fast path for short inputs computes the same result). -/
def Atoi (s : GoString) : Int × Option NumError :=
  match s with
  | [] => (0, some .ErrSyntax)
  | c :: rest =>
    let neg : Bool := c = 45
    let digits := if c = 43 ∨ c = 45 then rest else s
    match ParseUint digits with
    | (_, some .ErrSyntax) => (0, some .ErrSyntax)
    | (un, e) =>
      if !neg && un ≥ 9223372036854775808 then (9223372036854775807, some .ErrRange)
      else if neg && un > 9223372036854775808 then (-9223372036854775808, some .ErrRange)
      else (if neg then -(un : Int) else (un : Int), e)

/-- The function `strings.ToLower`: an all-ASCII string has its letters `A`-`Z`
mapped to `a`-`z` byte by byte; any other string goes through
`strings.Map(unicode.ToLower, s)`, which is the parameter `mapLower` (the
Unicode case tables are not part of the repository). -/
def strings.ToLower (mapLower : GoString → GoString) (s : GoString) : GoString :=
  if s.all (fun c => c.toNat < 128) then
    s.map (fun c => if 65 ≤ c.toNat ∧ c.toNat ≤ 90 then c + 32 else c)
  else mapLower s

/-! ## Package `message` -/

namespace message

/-- The struct `Metadata` of `message.go`. -/
structure Metadata where
  Created : Time
  Filename : GoString
  ContentType : GoString
deriving DecidableEq

/-- The zero value `Metadata{}`. -/
def Metadata.zero : Metadata := ⟨Time.zero, [], []⟩

/-- The struct `Message` of `message.go`. `Data` is the byte slice; a `nil`
slice and an empty one are both the empty list. -/
structure Message where
  Data : List Byte
  Meta : Metadata
deriving DecidableEq

/-- The zero value `Message{}`. -/
def Message.zero : Message := ⟨[], Metadata.zero⟩

/-- The constructor `New` of `message.go`: stamps `Created` with the clock and
leaves every other field zero. -/
def New (now : Time) : Message :=
  { Data := [], Meta := { Created := now, Filename := [], ContentType := [] } }

/-- The constant `keyLetters` of `keys.go`. -/
def keyLetters : GoString :=
  str "abcdefghijklmnopqrstuvwxyzABCDEFGHIJKLMNOPQRSTUVWXYZ0123456789"

/-- The call `rand.Intn(n)` on the process-wide source. The source is the
stream `rnd` of raw draws and `i` counts the calls made so far; the result
lies in `[0, n)`. -/
def Intn (rnd : Nat → Nat) (i n : Nat) : Nat := rnd i % n

/-- The function `NewKeyFromRandomLetters` of `keys.go`. `make([]byte, length)`
panics on a negative length, which is the result `none`; otherwise byte `i`
of the buffer is `keyLetters[rand.Intn(len(keyLetters))]`. -/
def NewKeyFromRandomLetters (rnd : Nat → Nat) (length : Int) : Option GoString :=
  if length < 0 then none
  else
    some ((List.range length.toNat).map fun i =>
      keyLetters.get ⟨Intn rnd i keyLetters.length,
        Nat.mod_lt _ (by decide)⟩)

end message

open message (Message Metadata)

/-! ## Package `memory` -/

namespace memory

/-- The struct `Config` of `memoryclient.go`. -/
structure Config where
  PruneInterval : Duration
deriving DecidableEq

/-- The struct `memoryClient` (the mutex is the atomicity of each call). -/
structure memoryClient where
  data : GoMap Message
  cfg : Config
  ttl : Duration
deriving DecidableEq

/-- The constructor `New` of `memoryclient.go`. -/
def New (cfg : Config) (ttl : Duration) : memoryClient :=
  { data := ∅, cfg := cfg, ttl := ttl }

/-- The error `fmt.Errorf("no message found for key: %s", key)`. -/
def notFound (key : GoString) : error :=
  some (str "no message found for key: " ++ key)

/-- The method `GetMetadata`: returns the client afterwards, the metadata and
the error. -/
def memoryClient.GetMetadata (mc : memoryClient) (now : Time) (key : GoString) :
    memoryClient × Metadata × error :=
  match mc.data.lookup key with
  | some msg =>
    if (time.Since now msg.Meta.Created).ns < mc.ttl.ns then
      (mc, msg.Meta, none)
    else
      (mc, Metadata.zero, notFound key)
  | none => (mc, Metadata.zero, notFound key)

/-- The method `GetMessage`: returns the client afterwards, the message and
the error. On success the key is deleted from the map. -/
def memoryClient.GetMessage (mc : memoryClient) (now : Time) (key : GoString) :
    memoryClient × Message × error :=
  match mc.data.lookup key with
  | some msg =>
    if (time.Since now msg.Meta.Created).ns < mc.ttl.ns then
      ({ mc with data := mc.data.erase key }, msg, none)
    else
      (mc, Message.zero, notFound key)
  | none => (mc, Message.zero, notFound key)

/-- The method `SetMessage`: `mc.data[key] = msg`, always returning `nil`. -/
def memoryClient.SetMessage (mc : memoryClient) (key : GoString) (msg : Message) :
    memoryClient × error :=
  ({ mc with data := mc.data.insert key msg }, none)

/-- The method `NewMessageKey`. -/
def memoryClient.NewMessageKey (_mc : memoryClient) (rnd : Nat → Nat) : Option GoString :=
  message.NewKeyFromRandomLetters rnd 12

/-- The closure `cleanup` of the method `Run`, executed at the instant `now`:
ranges over the entries of the map and deletes the key of every entry with
`time.Since(msg.Meta.Created) > mc.ttl`. -/
def memoryClient.cleanup (mc : memoryClient) (now : Time) : memoryClient :=
  { mc with
    data := mc.data.entries.foldl
      (fun d e => if (time.Since now e.2.Meta.Created).ns > mc.ttl.ns then d.erase e.1 else d)
      mc.data }

/-- A run of `GetMetadata(key)` calls, one at each instant of the list, in
order; returns the client after the last call. -/
def getMetadataCalls (mc : memoryClient) (key : GoString) : List Time → memoryClient
  | [] => mc
  | now :: rest => getMetadataCalls (mc.GetMetadata now key).1 key rest

end memory

/-! ## Package `redis` -/

namespace redis

/-- The struct `Config` of `redisclient.go`. -/
structure Config where
  Addr : GoString
  DB : Int
  Password : GoString
deriving DecidableEq

/-- The struct `redisClient`. The handle `db` is the set of options the
connection was opened with; the contents of the remote server are the separate
state `Server`. -/
structure redisClient where
  db : Config
  cfg : Config
  ttl : Duration
deriving DecidableEq

/-- The constructor `New` of `redisclient.go`. -/
def New (cfg : Config) (ttl : Duration) : redisClient :=
  { db := { Addr := cfg.Addr, DB := cfg.DB, Password := cfg.Password }, cfg := cfg, ttl := ttl }

/-- A value of the `map[string]interface{}` the client sends: the code puts in
strings and one `int64`. -/
inductive Value where
  | string (s : GoString)
  | int64 (n : Int)
deriving DecidableEq

/-- The string the remote protocol carries for a value: a string as it is, an
`int64` in decimal. -/
def Value.render : Value → GoString
  | .string s => s
  | .int64 n => FormatInt n

/-- The fields of a multi-field set written one after the other into a hash of
the server. -/
def setFields (hash : GoMap GoString) (fields : GoMap Value) : GoMap GoString :=
  fields.entries.foldr (fun e h => h.insert e.1 e.2.render) hash

/-- One key of the remote server: its hash and the timeout armed on it, in
whole seconds, if any (how the server counts the timeout down is outside the
model). -/
structure Entry where
  hash : GoMap GoString
  expire : Option Int
deriving DecidableEq

/-- The contents of the remote server. -/
abbrev Server := GoMap Entry

/-- The command `HMSet(key, fields)`. `fault` is the transport or server error
the command meets, if any; a failed command leaves the server as it was. -/
def HMSet (db : Server) (fault : error) (key : GoString) (fields : GoMap Value) :
    Server × error :=
  match fault with
  | some e => (db, some e)
  | none =>
    match db.lookup key with
    | some ent => (db.insert key { ent with hash := setFields ent.hash fields }, none)
    | none => (db.insert key { hash := setFields ∅ fields, expire := none }, none)

/-- The seconds the client puts on the wire for a duration:
`int64(dur / time.Second)`, a division that truncates toward zero, so that a
duration below one second is sent as 0. -/
def formatSec (dur : Duration) : Int := Int.tdiv dur.ns 1000000000

/-- The command `Expire(key, expiration)`: the client sends
`EXPIRE key formatSec(expiration)`. On an existing key the server arms that
timeout when it is positive and deletes the key when it is zero or negative;
a key that does not exist is left alone. Returns the server, whether the
server acted on the key, and the error. -/
def Expire (db : Server) (fault : error) (key : GoString) (expiration : Duration) :
    Server × Bool × error :=
  match fault with
  | some e => (db, false, some e)
  | none =>
    match db.lookup key with
    | some ent =>
      if formatSec expiration ≤ 0 then (db.erase key, true, none)
      else (db.insert key { ent with expire := some (formatSec expiration) }, true, none)
    | none => (db, false, none)

/-- The command `HGetAll(key)`: every field of the hash, the empty map for a
key that does not exist. -/
def HGetAll (db : Server) (fault : error) (key : GoString) : GoMap GoString × error :=
  match fault with
  | some e => (∅, some e)
  | none =>
    match db.lookup key with
    | some ent => (ent.hash, none)
    | none => (∅, none)

/-- The command `Del(key)`. -/
def Del (db : Server) (fault : error) (key : GoString) : Server × error :=
  match fault with
  | some e => (db, some e)
  | none => (db.erase key, none)

/-- The index expression `hash[field]` on a `map[string]string`: the empty
string for a missing field. -/
def field (hash : GoMap GoString) (name : GoString) : GoString :=
  (hash.lookup name).getD []

/-- The function `convertRedisHashToMessage`; the error of `Atoi` is dropped. -/
def convertRedisHashToMessage (hash : GoMap GoString) : Message :=
  let ts := (Atoi (field hash (str "created"))).1
  { Data := field hash (str "data"),
    Meta := { Created := time.Unix ts 0,
              Filename := field hash (str "filename"),
              ContentType := field hash (str "content-type") } }

/-- The function `convertMessageToRedisHash`. -/
def convertMessageToRedisHash (msg : Message) : GoMap Value :=
  ((((∅ : GoMap Value).insert (str "data") (.string msg.Data)).insert
    (str "created") (.int64 msg.Meta.Created.Unix)).insert
    (str "filename") (.string msg.Meta.Filename)).insert
    (str "content-type") (.string msg.Meta.ContentType)

/-- The error `fmt.Errorf("could not find key: %s", key)`. -/
def couldNotFind (key : GoString) : error :=
  some (str "could not find key: " ++ key)

/-- The method `GetMetadata`; `fault` is the error met by `HGetAll`. -/
def redisClient.GetMetadata (_c : redisClient) (db : Server) (fault : error)
    (key : GoString) : Metadata × error :=
  match HGetAll db fault key with
  | (_, some e) => (Metadata.zero, some e)
  | (hash, none) =>
    if hash.entries.length = 0 then (Metadata.zero, couldNotFind key)
    else ((convertRedisHashToMessage hash).Meta, none)

/-- The method `GetMessage`; `fault1` is the error met by `HGetAll`, `fault2`
the one met by `Del`. Returns the server afterwards, the message and the
error. -/
def redisClient.GetMessage (_c : redisClient) (db : Server) (fault1 fault2 : error)
    (key : GoString) : Server × Message × error :=
  match HGetAll db fault1 key with
  | (_, some e) => (db, Message.zero, some e)
  | (hash, none) =>
    if hash.entries.length = 0 then (db, Message.zero, couldNotFind key)
    else
      match Del db fault2 key with
      | (db1, some e) => (db1, Message.zero, some e)
      | (db1, none) => (db1, convertRedisHashToMessage hash, none)

/-- The method `SetMessage`; `fault1` is the error met by `HMSet`, `fault2` the
one met by `Expire`. The result of `Expire` is not inspected. Returns the
server afterwards and the error. -/
def redisClient.SetMessage (c : redisClient) (db : Server) (fault1 fault2 : error)
    (key : GoString) (msg : Message) : Server × error :=
  match HMSet db fault1 key (convertMessageToRedisHash msg) with
  | (db1, some e) => (db1, some e)
  | (db1, none) => ((Expire db1 fault2 key c.ttl).1, none)

/-- The method `NewMessageKey`. -/
def redisClient.NewMessageKey (_c : redisClient) (rnd : Nat → Nat) : Option GoString :=
  message.NewKeyFromRandomLetters rnd 12

end redis

/-! ## Package `storage` -/

/-- The values of the interface `message.StorageClient`: one of the two
implementations. -/
inductive StorageClient where
  | memory (mc : memory.memoryClient)
  | redis (rc : redis.redisClient)
deriving DecidableEq

namespace storage

/-- The struct `Config` of `factory.go`. -/
structure Config where
  Client : GoString
  TTL : Duration
  Memory : memory.Config
  Redis : redis.Config
deriving DecidableEq

/-- The function `New` of `factory.go`: the backend (`none` is the `nil`
interface) and the error. -/
def New (mapLower : GoString → GoString) (cfg : Config) : Option StorageClient × error :=
  if strings.ToLower mapLower cfg.Client = str "memory" then
    (some (.memory (memory.New cfg.Memory cfg.TTL)), none)
  else if strings.ToLower mapLower cfg.Client = str "redis" then
    (some (.redis (redis.New cfg.Redis cfg.TTL)), none)
  else
    (none, some (str "unsupported storage client: " ++ cfg.Client))

end storage

/-! ## Package `api`: the submit path -/

namespace api

/-- The end of the handler built by `addMessageHandler`, on the in-memory
backend, once the message has been read from the request:
`key := h.store.NewMessageKey(); err := h.store.SetMessage(key, msg)`, then the
response. Returns the store afterwards, the status and the body of the
response (`none` when key generation panics). -/
def addMessageHandler (store : memory.memoryClient) (rnd : Nat → Nat) (msg : Message) :
    Option (memory.memoryClient × Nat × GoString) :=
  match store.NewMessageKey rnd with
  | none => none
  | some key =>
    match store.SetMessage key msg with
    | (store1, some _) => some (store1, 500, str "A server-side error occurred\n")
    | (store1, none) => some (store1, 200, key)

end api

/-! ## Package `main` of the repository root: the legacy datastore -/

namespace legacy

/-- The struct `Config` of `main.go`. -/
structure Config where
  Port : Int
  Host : GoString
  HTTPReadTimeout : Duration
  HTTPWriteTimeout : Duration
  HTTPStaticPath : GoString
  HTTPTemplatePath : GoString
  LogLevel : GoString
  CleanInterval : Duration
  ExpiredTTL : Duration
  KeyLength : Int
deriving DecidableEq

/-- The constant `KeyLetters` of `datastore.go`. -/
def KeyLetters : GoString :=
  str "abcdefghijklmnopqrstuvwxyzABCDEFGHIJKLMNOPQRSTUVWXYZ0123456789"

/-- The constant `MetaTypeMessage`. -/
def MetaTypeMessage : GoString := str "message"

/-- The constant `MetaTypeFile`. -/
def MetaTypeFile : GoString := str "file"

/-- The function `NewDatastoreKey`: `none` when `make` panics on a negative
length. -/
def NewDatastoreKey (rnd : Nat → Nat) (length : Int) : Option GoString :=
  if length < 0 then none
  else
    some ((List.range length.toNat).map fun i =>
      KeyLetters.get ⟨message.Intn rnd i KeyLetters.length,
        Nat.mod_lt _ (by decide)⟩)

/-- The struct `HyperlinkMetadata`. The field `Type` of the source is `Type_`
here; `MaxViews` and `Views` are 64-bit `int`s. -/
structure HyperlinkMetadata where
  MaxViews : Int
  Views : Int
  ExpireIn : Duration
  Expired : Bool
  Created : Time
  Type_ : GoString
  ContentType : GoString
  Filename : GoString
deriving DecidableEq

/-- The struct `HyperlogEntry`. -/
structure HyperlogEntry where
  Timestamp : Time
  IP : GoString
  UserAgent : GoString
deriving DecidableEq

/-- The struct `Hyperlink`. A `nil` `Data` and an empty one are both the empty
list, likewise for `Log`. -/
structure Hyperlink where
  Data : List Byte
  Meta : HyperlinkMetadata
  Log : List HyperlogEntry
deriving DecidableEq

/-- The zero value `HyperlinkMetadata{}`. -/
def HyperlinkMetadata.zero : HyperlinkMetadata :=
  { MaxViews := 0, Views := 0, ExpireIn := ⟨0, by decide⟩, Expired := false,
    Created := Time.zero, Type_ := [], ContentType := [], Filename := [] }

/-- The zero value `Hyperlink{}`. -/
def Hyperlink.zero : Hyperlink := { Data := [], Meta := HyperlinkMetadata.zero, Log := [] }

/-- The method `hasExpired`, at the clock reading `now`: the hyperlink after
the call (the method sets `Meta.Expired` through its pointer receiver) and the
returned flag. -/
def Hyperlink.hasExpired (h : Hyperlink) (now : Time) : Hyperlink × Bool :=
  if h.Meta.Expired then (h, true)
  else
    let h1 : Hyperlink :=
      if h.Meta.MaxViews > 0 ∧ h.Meta.Views > h.Meta.MaxViews then
        { h with Meta := { h.Meta with Expired := true } }
      else h
    let h2 : Hyperlink :=
      if ((h1.Meta.Created.Add h1.Meta.ExpireIn).Sub now).ns < 0 then
        { h1 with Meta := { h1.Meta with Expired := true } }
      else h1
    (h2, h2.Meta.Expired)

/-- The method `AddLog`. -/
def Hyperlink.AddLog (h : Hyperlink) (entry : HyperlogEntry) : Hyperlink :=
  { h with Log := h.Log ++ [entry] }

/-- The first two statements of `Get` on the hyperlink found:
`hyperlink.AddLog(entry)` and `hyperlink.Meta.Views++` (a 64-bit `int`). -/
def Hyperlink.viewed (h : Hyperlink) (entry : HyperlogEntry) : Hyperlink :=
  { h.AddLog entry with
    Meta := { h.Meta with Views := wrapInt64 (h.Meta.Views + 1) } }

/-- The struct `Datastore`. The map holds pointers to hyperlinks that nothing
else in the store shares, so it is a map to the structs themselves and a write
through the pointer `d.data[key]` is the assignment of the updated struct at
`key`. -/
structure Datastore where
  config : Config
  data : GoMap Hyperlink
deriving DecidableEq

/-- The constructor `NewDatastore`. -/
def NewDatastore (cfg : Config) : Datastore := { config := cfg, data := ∅ }

/-- The method `Add`, at the clock reading `now`. The loop draws keys until one
is not in the map; `fuel` bounds the number of draws and the result is `none`
when the loop has not ended within it (or when key generation panics).
Returns the datastore afterwards and the key. -/
def Datastore.Add (d : Datastore) (rnd : Nat → Nat) (fuel : Nat) (now : Time)
    (hyperlink : Hyperlink) (entry : HyperlogEntry) : Option (Datastore × GoString) :=
  match fuel with
  | 0 => none
  | fuel + 1 =>
    match NewDatastoreKey rnd d.config.KeyLength with
    | none => none
    | some key =>
      if (d.data.lookup key).isSome then
        d.Add (fun i => rnd (i + d.config.KeyLength.toNat)) fuel now hyperlink entry
      else
        some ({ d with
                data := d.data.insert key
                  ({ hyperlink with
                     Meta := { hyperlink.Meta with Created := now } }.AddLog entry) },
              key)

/-- The method `Get`, at the clock reading `now`: the datastore afterwards, the
hyperlink returned and the error. -/
def Datastore.Get (d : Datastore) (now : Time) (key : GoString) (entry : HyperlogEntry) :
    Datastore × Hyperlink × error :=
  match d.data.lookup key with
  | some hyperlink =>
    let r := (hyperlink.viewed entry).hasExpired now
    if r.2 then
      ({ d with data := d.data.insert key { r.1 with Data := [] } },
        Hyperlink.zero, some (key ++ str " has expired"))
    else
      ({ d with data := d.data.insert key r.1 }, r.1, none)
  | none => (d, Hyperlink.zero, some (key ++ str " was not found"))

/-- The method `Info`, at the clock reading `now`: the datastore afterwards
(`hasExpired` may set the flag), the metadata returned and the error. -/
def Datastore.Info (d : Datastore) (now : Time) (key : GoString) :
    Datastore × HyperlinkMetadata × error :=
  match d.data.lookup key with
  | some hyperlink =>
    let r := hyperlink.hasExpired now
    if r.2 then
      ({ d with data := d.data.insert key r.1 },
        HyperlinkMetadata.zero, some (key ++ str " has expired"))
    else
      ({ d with data := d.data.insert key r.1 }, r.1.Meta, none)
  | none => (d, HyperlinkMetadata.zero, some (key ++ str " was not found"))

/-- The body of the loop of `PurgeExpiredKeys` for one hyperlink `d.data[x]`,
at the clock reading `now`: `none` when the key is deleted, otherwise the
hyperlink as the body leaves it. The first `hasExpired` is called only when
`expireIn < -ExpiredTTL`, the second only when the first branch is not taken
and `expireIn < 0`. -/
def purgeEntry (cfg : Config) (now : Time) (h : Hyperlink) : Option Hyperlink :=
  let expireIn := ((h.Meta.Created.Add h.Meta.ExpireIn).Sub now).ns
  let old : Bool := expireIn < wrapInt64 (-cfg.ExpiredTTL.ns)
  let r1 := if old then h.hasExpired now else (h, false)
  if old && r1.2 then none
  else
    let past : Bool := expireIn < 0
    let r2 := if past then r1.1.hasExpired now else (r1.1, true)
    if past && !r2.2 then some { r2.1 with Data := [] }
    else some r2.1

/-- The method `PurgeExpiredKeys`, at the clock reading `now`: ranges over the
keys of the map and applies the loop body to each. Always returns `nil`. -/
def Datastore.PurgeExpiredKeys (d : Datastore) (now : Time) : Datastore × error :=
  ({ d with
     data := d.data.entries.foldl
       (fun acc e =>
         match acc.lookup e.1 with
         | none => acc
         | some h =>
           match purgeEntry d.config now h with
           | none => acc.erase e.1
           | some h1 => acc.insert e.1 h1)
       d.data },
    none)

/-- What `handleAddHyperlink` reads from the request body: a form value, or a
file with the content type and the file name of its part header. -/
inductive Upload where
  | form (data : List Byte)
  | file (data : List Byte) (contentType : GoString) (filename : GoString)
deriving DecidableEq

/-- The hyperlink `handleAddHyperlink` builds from `maxViews`, `expireIn` and
the request body, before it is added. -/
def newHyperlink (maxViews : Int) (expireIn : Duration) : Upload → Hyperlink
  | .form data =>
    { Data := data,
      Meta := { HyperlinkMetadata.zero with
                MaxViews := maxViews, ExpireIn := expireIn, Type_ := MetaTypeMessage },
      Log := [] }
  | .file data contentType filename =>
    { Data := data,
      Meta := { HyperlinkMetadata.zero with
                MaxViews := maxViews, ExpireIn := expireIn, Type_ := MetaTypeFile,
                ContentType := contentType, Filename := filename },
      Log := [] }

/-- The handler built by `handleAddHyperlink`, once `maxViews`, `expireIn` and
the body have been read from the request: `key := h.db.Add(hyperlink,
getClientInfo(r))`. Returns the datastore afterwards and the key written to
the response. -/
def handleAddHyperlink (db : Datastore) (rnd : Nat → Nat) (fuel : Nat) (now : Time)
    (maxViews : Int) (expireIn : Duration) (body : Upload) (client : HyperlogEntry) :
    Option (Datastore × GoString) :=
  db.Add rnd fuel now (newHyperlink maxViews expireIn body) client

/-- The bytes of the request body. -/
def Upload.data : Upload → List Byte
  | .form data => data
  | .file data _ _ => data

/-- The fields of a stored hyperlink that no `Get` before its expiry changes:
the data, a clear `Expired` flag, `MaxViews`, `Created` and `ExpireIn`. -/
def Live (data : List Byte) (n : Int) (c : Time) (x : Duration) (h : Hyperlink) : Prop :=
  h.Data = data ∧ h.Meta.Expired = false ∧ h.Meta.MaxViews = n ∧ h.Meta.Created = c ∧
    h.Meta.ExpireIn = x

/-- A run of `Get(key, entry)` calls, one for each instant and log entry of
the list, in order; returns the datastore after the last call. -/
def getCalls (d : Datastore) (key : GoString) : List (Time × HyperlogEntry) → Datastore
  | [] => d
  | c :: rest => getCalls (d.Get c.1 key c.2).1 key rest

end legacy

/-! ## Package `api`: `parseSizeInBytes` -/

/-- The parts of the standard library that depend on Unicode tables or on
floating-point rounding, which the embedding takes as parameters:
`mapLower` is `strings.Map(unicode.ToLower, ·)`; `trimFunc` is
`strings.TrimFunc(·, unicode.IsSpace)`; `digitWidth r` is the width in bytes of
the rune at the start of `r` when `r` starts with a byte outside ASCII and that
rune satisfies `unicode.IsDigit`, and 0 otherwise; `parseFloat s` is
`int64(v)` and the error of `v, err := strconv.ParseFloat(s, 64)` on the ASCII
strings that are not a run of digits below `2^53`. -/
structure Stdlib where
  mapLower : GoString → GoString
  trimFunc : GoString → GoString
  digitWidth : GoString → Nat
  parseFloat : GoString → Int × Option NumError

/-- The table `asciiSpace` of package `strings`: tab, line feed, vertical tab,
form feed, carriage return and space. -/
def asciiSpace (c : Byte) : Bool :=
  c = 9 || c = 10 || c = 11 || c = 12 || c = 13 || c = 32

/-- The function `strings.TrimSpace`: ASCII white space is cut from both ends
byte by byte, and as soon as a byte outside ASCII is met at an end the rest
goes through `strings.TrimFunc(·, unicode.IsSpace)`. -/
def strings.TrimSpace (trimFunc : GoString → GoString) (s : GoString) : GoString :=
  let s1 := s.dropWhile asciiSpace
  match s1 with
  | [] => []
  | c :: _ =>
    if c.toNat ≥ 128 then trimFunc s1
    else
      let s2 := (s1.reverse.dropWhile asciiSpace).reverse
      match s2.getLast? with
      | some c2 => if c2.toNat ≥ 128 then trimFunc s2 else s2
      | none => s2

/-- The loop `for i, r := range s { if !unicode.IsDigit(r) { ... break } }` of
`parseSizeInBytes`: the byte offset `i` of the first rune that is not a digit,
`none` when every rune is one. An ASCII byte is a digit when it is `0`-`9`; a
rune starting with any other byte is a digit when `digitWidth` says so, and is
then skipped whole. `fuel` bounds the number of runes. -/
def firstNonDigit (digitWidth : GoString → Nat) : Nat → GoString → Option Nat
  | 0, _ => none
  | _ + 1, [] => none
  | fuel + 1, c :: rest =>
    if c.toNat < 128 then
      if 48 ≤ c.toNat ∧ c.toNat ≤ 57 then
        (firstNonDigit digitWidth fuel rest).map (· + 1)
      else some 0
    else if digitWidth (c :: rest) = 0 then some 0
    else
      (firstNonDigit digitWidth fuel ((c :: rest).drop (digitWidth (c :: rest)))).map
        (· + digitWidth (c :: rest))

/-- The string `sfx` does not begin with a digit: it is empty, or its first
rune is rejected by `unicode.IsDigit` (an ASCII byte other than `0`-`9`, or a
rune outside ASCII for which `digitWidth` is 0). -/
def noLeadingDigit (digitWidth : GoString → Nat) : GoString → Prop
  | [] => True
  | c :: rest =>
    (c.toNat < 128 ∧ ¬ (48 ≤ c.toNat ∧ c.toNat ≤ 57)) ∨
      (128 ≤ c.toNat ∧ digitWidth (c :: rest) = 0)

instance (digitWidth : GoString → Nat) (sfx : GoString) :
    Decidable (noLeadingDigit digitWidth sfx) := by
  cases sfx <;> unfold noLeadingDigit <;> exact inferInstance

/-- The value of a run of ASCII decimal digits. -/
def digitsValue (s : GoString) : Nat :=
  s.foldl (fun n c => n * 10 + (c.toNat - 48)) 0

/-- The statement `v, err := strconv.ParseFloat(s, 64)` together with the
conversion `int64(v)` the caller applies to `v`: the empty string and every
string with a byte outside ASCII are syntax errors; a run of ASCII digits
below `2^53` is that integer, exactly representable as a `float64`; every
other string is left to `parseFloat`. -/
def ParseFloatInt64 (parseFloat : GoString → Int × Option NumError) (s : GoString) :
    Int × Option NumError :=
  if s = [] then (0, some .ErrSyntax)
  else if s.all (fun c => 48 ≤ c.toNat ∧ c.toNat ≤ 57) ∧ digitsValue s < 9007199254740992 then
    ((digitsValue s : Nat), none)
  else if s.any (fun c => c.toNat ≥ 128) then (0, some .ErrSyntax)
  else parseFloat s

namespace api

/-- The function `parseSizeInBytes` of `handler.go`. A shift `int64(v) << k`
wraps around in 64 bits. -/
def parseSizeInBytes (lib : Stdlib) (size : GoString) : Int :=
  let s := strings.TrimSpace lib.trimFunc size
  let split : GoString × GoString :=
    match firstNonDigit lib.digitWidth s.length s with
    | some i => (s.take i, s.drop i)
    | none => (s, [])
  match ParseFloatInt64 lib.parseFloat split.1 with
  | (_, some _) => 0
  | (v, none) =>
    let unit := strings.ToLower lib.mapLower split.2
    if unit = str "b" ∨ unit = str "byte" ∨ unit = str "bytes" then v
    else if unit = str "k" ∨ unit = str "kb" ∨ unit = str "kilobyte" ∨
        unit = str "kilobytes" then wrapInt64 (v * 2 ^ 10)
    else if unit = str "m" ∨ unit = str "mb" ∨ unit = str "megabyte" ∨
        unit = str "megabytes" then wrapInt64 (v * 2 ^ 20)
    else if unit = str "g" ∨ unit = str "gb" ∨ unit = str "gigabyte" ∨
        unit = str "gigabytes" then wrapInt64 (v * 2 ^ 30)
    else if unit = str "t" ∨ unit = str "tb" ∨ unit = str "terabyte" ∨
        unit = str "terabytes" then wrapInt64 (v * 2 ^ 40)
    else v

end api

/-- The exponent `e` the specification gives for a lower-cased unit suffix: 1
for kilobytes, 2 for megabytes, 3 for gigabytes, 4 for terabytes and 0 for
every other suffix. -/
def specUnitExponent (unit : GoString) : Nat :=
  if unit = str "k" ∨ unit = str "kb" ∨ unit = str "kilobyte" ∨ unit = str "kilobytes" then 1
  else if unit = str "m" ∨ unit = str "mb" ∨ unit = str "megabyte" ∨
      unit = str "megabytes" then 2
  else if unit = str "g" ∨ unit = str "gb" ∨ unit = str "gigabyte" ∨
      unit = str "gigabytes" then 3
  else if unit = str "t" ∨ unit = str "tb" ∨ unit = str "terabyte" ∨
      unit = str "terabytes" then 4
  else 0

/-- A standard library whose Unicode parts know the Arabic-Indic digits
U+0660 to U+0669 (two bytes each, `D9 A0` to `D9 A9`) and nothing else, and
whose `parseFloat` rejects what is left to it. -/
def sampleLib : Stdlib :=
  { mapLower := id,
    trimFunc := id,
    digitWidth := fun r =>
      match r with
      | a :: b :: _ => if a = 217 ∧ 160 ≤ b.toNat ∧ b.toNat ≤ 169 then 2 else 0
      | _ => 0,
    parseFloat := fun _ => (0, some .ErrSyntax) }

/-! ## Sample values -/

section Samples

/-- A time-to-live of one hour. -/
def sampleTTL : Duration := ⟨3600000000000, by decide⟩

/-- An empty in-memory client with a five minute prune interval. -/
def sampleClient : memory.memoryClient :=
  memory.New ⟨⟨300000000000, by decide⟩⟩ sampleTTL

/-- A text message created at the instant 1000 s. -/
def sampleMessage : Message :=
  { Data := str "hello", Meta := { Created := ⟨1000000000000⟩, Filename := [], ContentType := [] } }

/-- A file message created at the instant 2000.5 s. -/
def sampleFile : Message :=
  { Data := [0, 255, 128, 10],
    Meta := { Created := ⟨2000500000000⟩, Filename := str "report.pdf",
              ContentType := str "application/pdf" } }

/-- A client of the external key-value backend with the default options. -/
def sampleRedis : redis.redisClient :=
  redis.New ⟨str "localhost:6379", 0, []⟩ sampleTTL

/-- The key of scenario (a). -/
def sampleKey : GoString := str "abc123def456"

/-- The sample client holding the text message under the sample key. -/
def boundaryClient : memory.memoryClient :=
  (sampleClient.SetMessage sampleKey sampleMessage).1

/-- The legacy configuration with the default flag values. -/
def legacyConfig : legacy.Config :=
  { Port := 8080, Host := [], HTTPReadTimeout := ⟨5000000000, by decide⟩,
    HTTPWriteTimeout := ⟨10000000000, by decide⟩, HTTPStaticPath := str "./static",
    HTTPTemplatePath := str "./templates", LogLevel := str "info",
    CleanInterval := ⟨300000000000, by decide⟩, ExpiredTTL := ⟨86400000000000, by decide⟩,
    KeyLength := 16 }

/-- The log entry of a sample visitor. -/
def legacyVisitor : legacy.HyperlogEntry :=
  { Timestamp := ⟨1000000000000⟩, IP := str "10.0.0.1", UserAgent := str "curl" }

/-- The key drawn first from the stream of draws `0, 1, 2, ...`. -/
def legacyKey : GoString := str "abcdefghijklmnop"

/-- The hyperlink stored for a form upload of `hello` with `maxViews = 2` and
`expireIn = 1h`, added at the instant 1000 s. -/
def legacyLink : legacy.Hyperlink :=
  { Data := str "hello",
    Meta := { MaxViews := 2, Views := 0, ExpireIn := ⟨3600000000000, by decide⟩,
              Expired := false, Created := ⟨1000000000000⟩,
              Type_ := legacy.MetaTypeMessage, ContentType := [], Filename := [] },
    Log := [legacyVisitor] }

/-- The legacy datastore holding that hyperlink alone. -/
def legacyStore : legacy.Datastore :=
  { config := legacyConfig, data := (∅ : GoMap legacy.Hyperlink).insert legacyKey legacyLink }

end Samples

/-! ## Theorems -/

section Lemmas

open memory redis legacy api

theorem since_lt_of_lt (now c : Time) (ttl : Duration)
    (h0 : -9223372036854775808 < ttl.ns)
    (h : now.unixNano < c.unixNano + ttl.ns) : (time.Since now c).ns < ttl.ns := by
  have hr := ttl.inRange
  unfold time.Since Time.Sub
  split_ifs <;> simp only <;> omega

theorem since_ge_of_ge (now c : Time) (ttl : Duration)
    (h : c.unixNano + ttl.ns ≤ now.unixNano) : ¬ (time.Since now c).ns < ttl.ns := by
  have hr := ttl.inRange
  unfold time.Since Time.Sub
  split_ifs <;> simp only <;> omega

theorem getMetadata_state (mc : memoryClient) (now : Time) (k : GoString) :
    (mc.GetMetadata now k).1 = mc := by
  unfold memoryClient.GetMetadata
  split
  · split_ifs <;> rfl
  · rfl

theorem getMetadataCalls_state (mc : memoryClient) (k : GoString) (nows : List Time) :
    getMetadataCalls mc k nows = mc := by
  induction nows generalizing mc with
  | nil => rfl
  | cons now rest ih => rw [getMetadataCalls, getMetadata_state, ih]

theorem getMessage_fresh (mc : memoryClient) (now : Time) (k : GoString) (m : Message)
    (hk : mc.data.lookup k = some m)
    (hf : (time.Since now m.Meta.Created).ns < mc.ttl.ns) :
    mc.GetMessage now k = ({ mc with data := mc.data.erase k }, m, none) := by
  unfold memoryClient.GetMessage
  rw [hk]
  simp only [hf, if_true]

theorem getMessage_absent (mc : memoryClient) (now : Time) (k : GoString)
    (hk : mc.data.lookup k = none) :
    mc.GetMessage now k = (mc, Message.zero, notFound k) := by
  unfold memoryClient.GetMessage
  rw [hk]

theorem getMessage_stale (mc : memoryClient) (now : Time) (k : GoString) (m : Message)
    (hk : mc.data.lookup k = some m)
    (hf : ¬ (time.Since now m.Meta.Created).ns < mc.ttl.ns) :
    mc.GetMessage now k = (mc, Message.zero, notFound k) := by
  unfold memoryClient.GetMessage
  rw [hk]
  simp only [hf, if_false]

theorem getMetadata_fresh (mc : memoryClient) (now : Time) (k : GoString) (m : Message)
    (hk : mc.data.lookup k = some m)
    (hf : (time.Since now m.Meta.Created).ns < mc.ttl.ns) :
    mc.GetMetadata now k = (mc, m.Meta, none) := by
  unfold memoryClient.GetMetadata
  rw [hk]
  simp only [hf, if_true]

theorem getMetadata_absent (mc : memoryClient) (now : Time) (k : GoString)
    (hk : mc.data.lookup k = none) :
    mc.GetMetadata now k = (mc, Metadata.zero, notFound k) := by
  unfold memoryClient.GetMetadata
  rw [hk]

theorem getMetadata_stale (mc : memoryClient) (now : Time) (k : GoString) (m : Message)
    (hk : mc.data.lookup k = some m)
    (hf : ¬ (time.Since now m.Meta.Created).ns < mc.ttl.ns) :
    mc.GetMetadata now k = (mc, Metadata.zero, notFound k) := by
  unfold memoryClient.GetMetadata
  rw [hk]
  simp only [hf, if_false]

theorem setMessage_lookup (mc : memoryClient) (k : GoString) (m : Message) :
    (mc.SetMessage k m).1.data.lookup k = some m := by
  simp [memoryClient.SetMessage]

theorem lookup_erase_some {V : Type} (d : GoMap V) (a k : GoString) (v : V)
    (h : (d.erase a).lookup k = some v) : d.lookup k = some v := by
  by_cases hka : k = a
  · subst hka
    rw [AList.lookup_erase] at h
    cases h
  · rwa [AList.lookup_erase_ne hka] at h

theorem lookup_foldl_erase_some {V : Type} (p : Sigma (fun _ : GoString => V) → Prop)
    [DecidablePred p] (l : List (Sigma fun _ : GoString => V)) (d : GoMap V)
    (k : GoString) (v : V)
    (h : (l.foldl (fun d e => if p e then d.erase e.1 else d) d).lookup k = some v) :
    d.lookup k = some v := by
  induction l generalizing d with
  | nil => exact h
  | cons e rest ih =>
    rw [List.foldl_cons] at h
    have h2 := ih _ h
    split_ifs at h2
    · exact lookup_erase_some d e.1 k v h2
    · exact h2

theorem cleanup_lookup_some (mc : memoryClient) (t : Time) (k : GoString) (m : Message)
    (h : (mc.cleanup t).data.lookup k = some m) : mc.data.lookup k = some m := by
  unfold memoryClient.cleanup at h
  exact lookup_foldl_erase_some _ _ _ k m h

theorem digitByte_toNat (d : Nat) (h : d < 10) : (digitByte d).toNat = 48 + d := by
  interval_cases d <;> rfl

theorem parseUintLoop_cons (c : Byte) (rest : GoString) (n : Nat) :
    parseUintLoop (c :: rest) n =
      if 48 ≤ c.toNat ∧ c.toNat ≤ 57 then
        if n ≥ 1844674407370955162 then (18446744073709551615, some .ErrRange)
        else if n * 10 + (c.toNat - 48) > 18446744073709551615 then
          (18446744073709551615, some .ErrRange)
        else parseUintLoop rest (n * 10 + (c.toNat - 48))
      else (0, some .ErrSyntax) := rfl

theorem parseUintLoop_append (l r : GoString) (n m : Nat)
    (h : parseUintLoop l n = (m, none)) :
    parseUintLoop (l ++ r) n = parseUintLoop r m := by
  induction l generalizing n with
  | nil =>
    simp only [parseUintLoop, Prod.mk.injEq, and_true] at h
    simp [h]
  | cons c rest ih =>
    rw [List.cons_append, parseUintLoop_cons]
    rw [parseUintLoop_cons] at h
    split_ifs at h ⊢ with h1 h2 h3
    · simp at h
    · simp at h
    · exact ih _ h
    · simp at h

theorem parseUintLoop_formatUint (fuel n : Nat) (hf : n < 10 ^ fuel)
    (hn : n ≤ 18446744073709551615) :
    parseUintLoop (formatUint fuel n) 0 = (n, none) := by
  induction fuel generalizing n with
  | zero => simp at hf; subst hf; rfl
  | succ fuel ih =>
    unfold formatUint
    split_ifs with h10
    · simp only [parseUintLoop, digitByte_toNat n h10]
      have : 48 ≤ 48 + n ∧ 48 + n ≤ 57 := by omega
      simp only [this, and_self, if_true]
      norm_num
      omega
    · have hq : n / 10 < 10 ^ fuel := by
        rw [pow_succ] at hf
        omega
      rw [parseUintLoop_append _ _ 0 (n / 10) (ih (n / 10) hq (by omega))]
      have hd : n % 10 < 10 := Nat.mod_lt _ (by decide)
      simp only [parseUintLoop, digitByte_toNat _ hd]
      have : 48 ≤ 48 + n % 10 ∧ 48 + n % 10 ≤ 57 := by omega
      simp only [this, and_self, if_true]
      have h2 : ¬ (n / 10 ≥ 1844674407370955162) := by omega
      have h3 : ¬ (n / 10 * 10 + (48 + n % 10 - 48) > 18446744073709551615) := by omega
      simp only [h2, h3, if_false]
      congr 1
      omega

theorem formatUint_head (fuel n : Nat) :
    ∃ d rest, d < 10 ∧ formatUint (fuel + 1) n = digitByte d :: rest := by
  induction fuel generalizing n with
  | zero =>
    unfold formatUint
    split_ifs with h
    · exact ⟨n, [], h, rfl⟩
    · exact ⟨n % 10, [], Nat.mod_lt _ (by decide), by simp [formatUint]⟩
  | succ fuel ih =>
    rw [formatUint]
    split_ifs with h
    · exact ⟨n, [], h, rfl⟩
    · obtain ⟨d, rest, hd, he⟩ := ih (n / 10)
      exact ⟨d, rest ++ [digitByte (n % 10)], hd, by rw [he]; rfl⟩

theorem digitByte_ne_sign (d : Nat) (h : d < 10) :
    digitByte d ≠ 43 ∧ digitByte d ≠ 45 := by
  interval_cases d <;> decide

theorem ParseUint_formatUint (n : Nat) (hn : n ≤ 9223372036854775808) :
    ParseUint (formatUint 20 n) = (n, none) := by
  obtain ⟨d, rest, _, he⟩ := formatUint_head 19 n
  have hne : formatUint 20 n ≠ [] := by rw [he]; exact List.cons_ne_nil _ _
  unfold ParseUint
  rw [if_neg hne]
  exact parseUintLoop_formatUint 20 n (by omega) (by omega)

theorem Atoi_FormatInt (i : Int) (hlo : -9223372036854775808 ≤ i)
    (hhi : i ≤ 9223372036854775807) : Atoi (FormatInt i) = (i, none) := by
  unfold FormatInt
  split_ifs with hneg
  · have hp := ParseUint_formatUint (-i).toNat (by omega)
    have h1 : ¬ (9223372036854775808 < (-i).toNat) := by omega
    have h2 : (-i) ⊔ 0 = -i := sup_of_le_left (by omega)
    simp [Atoi, hp, h1, h2]
  · obtain ⟨d, rest, hd, he⟩ := formatUint_head 19 i.toNat
    have hp := ParseUint_formatUint i.toNat (by omega)
    have hs := digitByte_ne_sign d hd
    rw [he] at hp ⊢
    have h1 : ¬ (9223372036854775808 ≤ i.toNat) := by omega
    have h2 : i ⊔ 0 = i := sup_of_le_left (by omega)
    simp [Atoi, hs.1, hs.2, hp, h1, h2]

theorem setFields_convert (h : GoMap GoString) (m : Message) :
    setFields h (convertMessageToRedisHash m) =
      ((((h.insert (str "data") m.Data).insert
        (str "created") (FormatInt m.Meta.Created.Unix)).insert
        (str "filename") m.Meta.Filename).insert
        (str "content-type") m.Meta.ContentType) := by
  have h1 : str "created" ≠ str "data" := by decide
  have h2 : str "filename" ≠ str "data" := by decide
  have h3 : str "filename" ≠ str "created" := by decide
  have h4 : str "content-type" ≠ str "data" := by decide
  have h5 : str "content-type" ≠ str "created" := by decide
  have h6 : str "content-type" ≠ str "filename" := by decide
  simp [setFields, convertMessageToRedisHash, AList.insert_entries, List.kerase_cons_ne,
    h1, h2, h3, h4, h5, h6, Value.render]

theorem field_convert (h : GoMap GoString) (m : Message) :
    field (setFields h (convertMessageToRedisHash m)) (str "data") = m.Data ∧
    field (setFields h (convertMessageToRedisHash m)) (str "created")
      = FormatInt m.Meta.Created.Unix ∧
    field (setFields h (convertMessageToRedisHash m)) (str "filename") = m.Meta.Filename ∧
    field (setFields h (convertMessageToRedisHash m)) (str "content-type")
      = m.Meta.ContentType := by
  have h1 : str "data" ≠ str "created" := by decide
  have h2 : str "data" ≠ str "filename" := by decide
  have h3 : str "created" ≠ str "filename" := by decide
  have h4 : str "data" ≠ str "content-type" := by decide
  have h5 : str "created" ≠ str "content-type" := by decide
  have h6 : str "filename" ≠ str "content-type" := by decide
  rw [setFields_convert]
  unfold field
  refine ⟨?_, ?_, ?_, ?_⟩
  · rw [AList.lookup_insert_ne h4, AList.lookup_insert_ne h2, AList.lookup_insert_ne h1,
      AList.lookup_insert]; rfl
  · rw [AList.lookup_insert_ne h5, AList.lookup_insert_ne h3, AList.lookup_insert]; rfl
  · rw [AList.lookup_insert_ne h6, AList.lookup_insert]; rfl
  · rw [AList.lookup_insert]; rfl

theorem time_eq_iff (a b : Time) : a = b ↔ a.unixNano = b.unixNano := by
  cases a; cases b; simp

theorem wrapInt64_range (x : Int) :
    -9223372036854775808 ≤ wrapInt64 x ∧ wrapInt64 x ≤ 9223372036854775807 := by
  unfold wrapInt64; omega

theorem time_Unix_zero_nsec (sec : Int) :
    time.Unix sec 0 = ⟨(wrapInt64 (sec + unixToInternal) - unixToInternal) * 1000000000⟩ := by
  simp [time.Unix]

theorem created_decoded (h : GoMap GoString) (m : Message) (hv : m.Meta.Created.valid) :
    (convertRedisHashToMessage (setFields h (convertMessageToRedisHash m))).Meta.Created
      = ⟨m.Meta.Created.unixNano / 1000000000 * 1000000000⟩ := by
  obtain ⟨_, hc, _, _⟩ := field_convert h m
  have hr : -9223372036854775808 ≤ m.Meta.Created.Unix ∧
      m.Meta.Created.Unix ≤ 9223372036854775807 := wrapInt64_range _
  simp only [convertRedisHashToMessage, hc]
  rw [Atoi_FormatInt _ hr.1 hr.2, time_Unix_zero_nsec]
  unfold Time.valid unixToInternal at hv
  congr 1
  unfold Time.Unix wrapInt64 unixToInternal
  omega

theorem setFields_convert_entries (h : GoMap GoString) (m : Message) :
    (setFields h (convertMessageToRedisHash m)).entries ≠ [] := by
  rw [setFields_convert, AList.insert_entries]
  exact List.cons_ne_nil _ _

theorem formatSec_pos (ttl : Duration) (httl : 1000000000 ≤ ttl.ns) :
    ¬ formatSec ttl ≤ 0 := by
  unfold formatSec
  rw [Int.tdiv_eq_ediv (by omega) (by omega)]
  omega

theorem formatSec_nonpos (ttl : Duration) (httl : ttl.ns < 1000000000) :
    formatSec ttl ≤ 0 := by
  unfold formatSec
  by_cases h0 : 0 ≤ ttl.ns
  · rw [Int.tdiv_eq_ediv h0 (by omega)]
    omega
  · have h1 : Int.tdiv ttl.ns 1000000000 = -(Int.tdiv (-ttl.ns) 1000000000) := by
      rw [Int.neg_tdiv, neg_neg]
    rw [h1, Int.tdiv_eq_ediv (by omega) (by omega)]
    omega

theorem redis_setMessage_fault (c : redisClient) (db : Server) (e : GoString)
    (k : GoString) (m : Message) :
    (c.SetMessage db none (some e) k m).2 = none ∧
    ∃ h0, (c.SetMessage db none (some e) k m).1.lookup k
      = some ⟨setFields h0 (convertMessageToRedisHash m),
          ((db.lookup k).map Entry.expire).getD none⟩ := by
  cases hl : db.lookup k with
  | none =>
    exact ⟨by simp [redisClient.SetMessage, HMSet, hl], ∅,
      by simp [redisClient.SetMessage, HMSet, Expire, hl]⟩
  | some ent =>
    exact ⟨by simp [redisClient.SetMessage, HMSet, hl], ent.hash,
      by simp [redisClient.SetMessage, HMSet, Expire, hl]⟩

theorem redis_setMessage_armed (c : redisClient) (db : Server)
    (k : GoString) (m : Message) (httl : 1000000000 ≤ c.ttl.ns) :
    (c.SetMessage db none none k m).2 = none ∧
    ∃ h0, (c.SetMessage db none none k m).1.lookup k
      = some ⟨setFields h0 (convertMessageToRedisHash m), some (formatSec c.ttl)⟩ := by
  have hp := formatSec_pos c.ttl httl
  cases hl : db.lookup k with
  | none =>
    exact ⟨by simp [redisClient.SetMessage, HMSet, hl], ∅,
      by simp [redisClient.SetMessage, HMSet, Expire, hl, hp]⟩
  | some ent =>
    exact ⟨by simp [redisClient.SetMessage, HMSet, hl], ent.hash,
      by simp [redisClient.SetMessage, HMSet, Expire, hl, hp]⟩

theorem redis_setMessage_short_ttl (c : redisClient) (db : Server)
    (k : GoString) (m : Message) (httl : c.ttl.ns < 1000000000) :
    (c.SetMessage db none none k m).2 = none ∧
    (c.SetMessage db none none k m).1.lookup k = none := by
  have hp := formatSec_nonpos c.ttl httl
  cases hl : db.lookup k with
  | none =>
    exact ⟨by simp [redisClient.SetMessage, HMSet, hl],
      by simp [redisClient.SetMessage, HMSet, Expire, hl, hp]⟩
  | some ent =>
    exact ⟨by simp [redisClient.SetMessage, HMSet, hl],
      by simp [redisClient.SetMessage, HMSet, Expire, hl, hp]⟩

theorem redis_get_after_set (c : redisClient) (db : Server) (k : GoString) (m : Message)
    (httl : 1000000000 ≤ c.ttl.ns) :
    ∃ h0,
      c.GetMetadata (c.SetMessage db none none k m).1 none k
        = ((convertRedisHashToMessage (setFields h0 (convertMessageToRedisHash m))).Meta, none) ∧
      (c.GetMessage (c.SetMessage db none none k m).1 none none k).2
        = (convertRedisHashToMessage (setFields h0 (convertMessageToRedisHash m)), none) := by
  obtain ⟨_, h0, hl⟩ := redis_setMessage_armed c db k m httl
  refine ⟨h0, ?_, ?_⟩
  · simp [redisClient.GetMetadata, HGetAll, hl, setFields_convert_entries]
  · simp [redisClient.GetMessage, HGetAll, Del, hl, setFields_convert_entries]

theorem keyLetters_alnum : ∀ c ∈ message.keyLetters,
    (97 ≤ c.toNat ∧ c.toNat ≤ 122) ∨ (65 ≤ c.toNat ∧ c.toNat ≤ 90) ∨
      (48 ≤ c.toNat ∧ c.toNat ≤ 57) := by
  decide

theorem toLower_sqlite (mapLower : GoString → GoString) :
    strings.ToLower mapLower (str "sqlite") = str "sqlite" := by
  unfold strings.ToLower
  rw [if_pos (by decide)]
  decide

theorem toLower_memory (mapLower : GoString → GoString) :
    strings.ToLower mapLower (str "memory") = str "memory" := by
  unfold strings.ToLower
  rw [if_pos (by decide)]
  decide

theorem lookup_foldl_keys {V : Type}
    (g : GoMap V → (Sigma fun _ : GoString => V) → GoMap V)
    (h : (Sigma fun _ : GoString => V) → Option V → Option V)
    (hne : ∀ acc e k, k ≠ e.1 → (g acc e).lookup k = acc.lookup k)
    (heq : ∀ acc e, (g acc e).lookup e.1 = h e (acc.lookup e.1))
    (l : List (Sigma fun _ : GoString => V)) (hnd : l.NodupKeys) (d : GoMap V)
    (k : GoString) :
    (l.foldl g d).lookup k =
      match l.dlookup k with
      | some v => h ⟨k, v⟩ (d.lookup k)
      | none => d.lookup k := by
  induction l generalizing d with
  | nil => rfl
  | cons e rest ih =>
    rw [List.nodupKeys_cons] at hnd
    rw [List.foldl_cons, ih hnd.2]
    by_cases hk : k = e.1
    · subst hk
      have hn : rest.dlookup e.1 = none := List.dlookup_eq_none.mpr hnd.1
      obtain ⟨a, b⟩ := e
      rw [hn, List.dlookup_cons_eq]
      exact heq d ⟨a, b⟩
    · rw [List.dlookup_cons_ne _ _ hk, hne d e k hk]

theorem cleanup_lookup (mc : memoryClient) (t : Time) (k : GoString) :
    (mc.cleanup t).data.lookup k =
      match mc.data.lookup k with
      | some m => if (time.Since t m.Meta.Created).ns > mc.ttl.ns then none else some m
      | none => none := by
  unfold memoryClient.cleanup
  simp only
  rw [lookup_foldl_keys _
    (fun e cur => if (time.Since t e.2.Meta.Created).ns > mc.ttl.ns then none else cur)
    _ _ _ mc.data.nodupKeys]
  · have hl : mc.data.entries.dlookup k = mc.data.lookup k := rfl
    rw [hl]
    cases mc.data.lookup k with
    | none => rfl
    | some m => rfl
  · intro acc e k hk
    split_ifs
    · exact AList.lookup_erase_ne hk
    · rfl
  · intro acc e
    by_cases hp : (time.Since t e.2.Meta.Created).ns > mc.ttl.ns
    · simp only [hp, if_true]
      exact AList.lookup_erase _ _
    · simp only [hp, if_false]

theorem since_mono (t t' c : Time) (h : t.unixNano ≤ t'.unixNano) :
    (time.Since t c).ns ≤ (time.Since t' c).ns := by
  unfold time.Since Time.Sub
  split_ifs <;> simp only <;> omega

theorem entries_eq_nil_of_lookup {V : Type} (d : GoMap V)
    (h : ∀ k, d.lookup k = none) : d.entries = [] := by
  cases he : d.entries with
  | nil => rfl
  | cons e rest =>
    exfalso
    have hm : e.1 ∈ d := by
      rw [AList.mem_keys, AList.keys, he]
      simp [List.keys]
    exact (AList.lookup_eq_none.mp (h e.1)) hm

theorem getMessage_failed (mc : memoryClient) (now : Time) (k : GoString)
    (hfail : (mc.GetMessage now k).2.2 ≠ none) :
    (mc.GetMessage now k).1 = mc ∧
    (mc.GetMessage now k).2 = (Message.zero, memory.notFound k) ∧
    (mc.data.lookup k = none ∨
      ∃ m, mc.data.lookup k = some m ∧ ¬ (time.Since now m.Meta.Created).ns < mc.ttl.ns) := by
  cases hk : mc.data.lookup k with
  | none =>
    rw [getMessage_absent mc now k hk]
    exact ⟨rfl, rfl, Or.inl rfl⟩
  | some m =>
    by_cases hf : (time.Since now m.Meta.Created).ns < mc.ttl.ns
    · rw [getMessage_fresh mc now k m hk hf] at hfail
      exact absurd rfl hfail
    · rw [getMessage_stale mc now k m hk hf]
      exact ⟨rfl, rfl, Or.inr ⟨m, rfl, hf⟩⟩

theorem sub_neg_iff (a now : Time) : (a.Sub now).ns < 0 ↔ a.unixNano < now.unixNano := by
  unfold Time.Sub
  split_ifs <;> simp only <;> omega

theorem sub_lt_negTTL_iff (a now : Time) (ttl : Duration) (h0 : 0 ≤ ttl.ns) :
    (a.Sub now).ns < wrapInt64 (-ttl.ns) ↔ a.unixNano + ttl.ns < now.unixNano := by
  have hr := ttl.inRange
  unfold Time.Sub wrapInt64
  split_ifs <;> simp only <;> omega

theorem hasExpired_past (h : Hyperlink) (now : Time)
    (hp : ((h.Meta.Created.Add h.Meta.ExpireIn).Sub now).ns < 0) :
    h.hasExpired now = ({ h with Meta := { h.Meta with Expired := true } }, true) := by
  obtain ⟨data, ⟨mv, v, ei, ex, cr, ty, ct, fn⟩, log⟩ := h
  simp only at hp
  unfold Hyperlink.hasExpired
  cases ex with
  | true => simp
  | false =>
    by_cases hv : mv > 0 ∧ v > mv
    · simp [hv, hp]
    · simp [hv, hp]

theorem purgeEntry_old (cfg : legacy.Config) (now : Time) (h : Hyperlink)
    (h0 : 0 ≤ cfg.ExpiredTTL.ns)
    (ho : (h.Meta.Created.Add h.Meta.ExpireIn).unixNano + cfg.ExpiredTTL.ns < now.unixNano) :
    purgeEntry cfg now h = none := by
  have h1 := (sub_lt_negTTL_iff _ now cfg.ExpiredTTL h0).mpr ho
  have h2 : ((h.Meta.Created.Add h.Meta.ExpireIn).Sub now).ns < 0 :=
    (sub_neg_iff _ now).mpr (by omega)
  unfold purgeEntry
  simp [h1, hasExpired_past h now h2]

theorem purgeEntry_recent (cfg : legacy.Config) (now : Time) (h : Hyperlink)
    (h0 : 0 ≤ cfg.ExpiredTTL.ns)
    (hr : now.unixNano ≤ (h.Meta.Created.Add h.Meta.ExpireIn).unixNano + cfg.ExpiredTTL.ns)
    (hp : (h.Meta.Created.Add h.Meta.ExpireIn).unixNano < now.unixNano) :
    purgeEntry cfg now h = some { h with Meta := { h.Meta with Expired := true } } := by
  have h1 : ¬ ((h.Meta.Created.Add h.Meta.ExpireIn).Sub now).ns
      < wrapInt64 (-cfg.ExpiredTTL.ns) := by
    rw [sub_lt_negTTL_iff _ now cfg.ExpiredTTL h0]; omega
  have h2 : ((h.Meta.Created.Add h.Meta.ExpireIn).Sub now).ns < 0 :=
    (sub_neg_iff _ now).mpr hp
  unfold purgeEntry
  simp [h1, h2, hasExpired_past h now h2]

theorem purgeEntry_future (cfg : legacy.Config) (now : Time) (h : Hyperlink)
    (h0 : 0 ≤ cfg.ExpiredTTL.ns)
    (hf : now.unixNano ≤ (h.Meta.Created.Add h.Meta.ExpireIn).unixNano) :
    purgeEntry cfg now h = some h := by
  have h1 : ¬ ((h.Meta.Created.Add h.Meta.ExpireIn).Sub now).ns
      < wrapInt64 (-cfg.ExpiredTTL.ns) := by
    rw [sub_lt_negTTL_iff _ now cfg.ExpiredTTL h0]; omega
  have h2 : ¬ ((h.Meta.Created.Add h.Meta.ExpireIn).Sub now).ns < 0 := by
    rw [sub_neg_iff]; omega
  unfold purgeEntry
  simp [h1, h2]

theorem purge_lookup (d : Datastore) (now : Time) (k : GoString) :
    (d.PurgeExpiredKeys now).1.data.lookup k
      = (d.data.lookup k).bind (purgeEntry d.config now) := by
  unfold Datastore.PurgeExpiredKeys
  simp only
  rw [lookup_foldl_keys _ (fun _ cur => cur.bind (purgeEntry d.config now))
    _ _ _ d.data.nodupKeys]
  · have hl : d.data.entries.dlookup k = d.data.lookup k := rfl
    rw [hl]
    cases d.data.lookup k with
    | none => rfl
    | some m => rfl
  · intro acc e k hk
    cases acc.lookup e.1 with
    | none => rfl
    | some h =>
      simp only
      cases purgeEntry d.config now h with
      | none => exact AList.lookup_erase_ne hk
      | some h1 => exact AList.lookup_insert_ne hk
  · intro acc e
    cases hl : acc.lookup e.1 with
    | none => simp [hl]
    | some h =>
      simp only [Option.some_bind]
      cases purgeEntry d.config now h with
      | none => exact AList.lookup_erase _ _
      | some h1 => exact AList.lookup_insert _

theorem add_stored (d : Datastore) (rnd : Nat → Nat) (fuel : Nat) (now : Time)
    (hl : Hyperlink) (entry : HyperlogEntry) (d1 : Datastore) (key : GoString)
    (h : d.Add rnd fuel now hl entry = some (d1, key)) :
    d1.data.lookup key
      = some ({ hl with Meta := { hl.Meta with Created := now } }.AddLog entry) := by
  induction fuel generalizing rnd with
  | zero => simp [Datastore.Add] at h
  | succ fuel ih =>
    unfold Datastore.Add at h
    cases hk : NewDatastoreKey rnd d.config.KeyLength with
    | none => simp [hk] at h
    | some k =>
      simp only [hk] at h
      split_ifs at h with hin
      · exact ih _ h
      · simp only [Option.some.injEq, Prod.mk.injEq] at h
        obtain ⟨h1, h2⟩ := h
        subst h1 h2
        exact AList.lookup_insert _

theorem handleAdd_live (db : Datastore) (rnd : Nat → Nat) (fuel : Nat) (t0 : Time)
    (n : Int) (x : Duration) (body : Upload) (client : HyperlogEntry)
    (d1 : Datastore) (key : GoString)
    (h : handleAddHyperlink db rnd fuel t0 n x body client = some (d1, key)) :
    ∃ h0, d1.data.lookup key = some h0 ∧ Live body.data n t0 x h0 ∧ h0.Meta.Views = 0 := by
  unfold handleAddHyperlink at h
  refine ⟨_, add_stored _ _ _ _ _ _ _ _ h, ?_⟩
  cases body <;>
    simp [Live, newHyperlink, Hyperlink.AddLog, HyperlinkMetadata.zero, Upload.data]

theorem hasExpired_live (h : Hyperlink) (now : Time) (hex : h.Meta.Expired = false)
    (hv : ¬ (h.Meta.MaxViews > 0 ∧ h.Meta.Views > h.Meta.MaxViews))
    (ht : now.unixNano ≤ (h.Meta.Created.Add h.Meta.ExpireIn).unixNano) :
    h.hasExpired now = (h, false) := by
  have h2 : ¬ ((h.Meta.Created.Add h.Meta.ExpireIn).Sub now).ns < 0 := by
    rw [sub_neg_iff]; omega
  unfold Hyperlink.hasExpired
  simp [hex, hv, h2]

theorem hasExpired_views (h : Hyperlink) (now : Time) (hex : h.Meta.Expired = false)
    (hv : h.Meta.MaxViews > 0 ∧ h.Meta.Views > h.Meta.MaxViews) :
    (h.hasExpired now).2 = true ∧ (h.hasExpired now).1.Meta.Expired = true := by
  unfold Hyperlink.hasExpired
  by_cases h2 : ((h.Meta.Created.Add h.Meta.ExpireIn).Sub now).ns < 0 <;>
    simp [hex, hv, h2]

theorem hasExpired_dead (h : Hyperlink) (now : Time) (hex : h.Meta.Expired = true) :
    h.hasExpired now = (h, true) := by
  unfold Hyperlink.hasExpired
  simp [hex]

theorem get_live (d : Datastore) (key : GoString) (h : Hyperlink) (now : Time)
    (e : HyperlogEntry) (hl : d.data.lookup key = some h) (hex : h.Meta.Expired = false)
    (hv : ¬ (h.Meta.MaxViews > 0 ∧ wrapInt64 (h.Meta.Views + 1) > h.Meta.MaxViews))
    (ht : now.unixNano ≤ (h.Meta.Created.Add h.Meta.ExpireIn).unixNano) :
    d.Get now key e
      = ({ d with data := d.data.insert key (h.viewed e) }, h.viewed e, none) := by
  have hr : (h.viewed e).hasExpired now = (h.viewed e, false) :=
    hasExpired_live _ now hex hv ht
  unfold Datastore.Get
  rw [hl]
  simp only [hr]
  rfl

theorem get_expired (d : Datastore) (key : GoString) (h : Hyperlink) (now : Time)
    (e : HyperlogEntry) (hl : d.data.lookup key = some h)
    (hx : h.Meta.Expired = true ∨
      (h.Meta.MaxViews > 0 ∧ wrapInt64 (h.Meta.Views + 1) > h.Meta.MaxViews)) :
    ∃ h1, d.Get now key e
        = ({ d with data := d.data.insert key h1 }, Hyperlink.zero,
            some (key ++ str " has expired")) ∧
      h1.Data = [] ∧ h1.Meta.Expired = true := by
  have hr : ((h.viewed e).hasExpired now).2 = true ∧
      ((h.viewed e).hasExpired now).1.Meta.Expired = true := by
    cases hex : h.Meta.Expired with
    | true =>
      rw [hasExpired_dead _ now (by exact hex)]
      exact ⟨rfl, hex⟩
    | false =>
      exact hasExpired_views _ now hex (hx.resolve_left (by simp [hex]))
  refine ⟨{ ((h.viewed e).hasExpired now).1 with Data := [] }, ?_, rfl, hr.2⟩
  unfold Datastore.Get
  rw [hl]
  simp only [hr.1, if_true]

theorem info_dead (d : Datastore) (key : GoString) (h : Hyperlink) (t : Time)
    (hl : d.data.lookup key = some h) (hex : h.Meta.Expired = true) :
    (d.Info t key).2 = (HyperlinkMetadata.zero, some (key ++ str " has expired")) := by
  unfold Datastore.Info
  rw [hl]
  simp only [hasExpired_dead h t hex, if_true]

theorem getCalls_unlimited (key : GoString) (data : List Byte) (n : Int) (c : Time)
    (x : Duration) (hn : n ≤ 0) (cs : List (Time × HyperlogEntry)) :
    ∀ (d : Datastore) (h : Hyperlink), d.data.lookup key = some h → Live data n c x h →
      (∀ q ∈ cs, q.1.unixNano ≤ c.unixNano + x.ns) →
      ∃ h1, (getCalls d key cs).data.lookup key = some h1 ∧ Live data n c x h1 := by
  induction cs with
  | nil => intro d h hl hlive _; exact ⟨h, hl, hlive⟩
  | cons q rest ih =>
    intro d h hl hlive hw
    obtain ⟨hd, hex, hmv, hc, hx⟩ := hlive
    have hq := hw q (List.mem_cons_self _ _)
    have hg := get_live d key h q.1 q.2 hl hex (by rw [hmv]; omega)
      (by rw [hc, hx]; exact hq)
    rw [getCalls, hg]
    exact ih _ (h.viewed q.2) (AList.lookup_insert _) ⟨hd, hex, hmv, hc, hx⟩
      (fun p hp => hw p (List.mem_cons_of_mem _ hp))

theorem getCalls_limited (key : GoString) (data : List Byte) (n : Int) (c : Time)
    (x : Duration) (hmax : n ≤ 9223372036854775807) (cs : List (Time × HyperlogEntry)) :
    ∀ (d : Datastore) (h : Hyperlink) (j : Nat), d.data.lookup key = some h →
      Live data n c x h → h.Meta.Views = j → (j : Int) + cs.length ≤ n →
      (∀ q ∈ cs, q.1.unixNano ≤ c.unixNano + x.ns) →
      ∃ h1, (getCalls d key cs).data.lookup key = some h1 ∧ Live data n c x h1 ∧
        h1.Meta.Views = (j : Int) + cs.length := by
  induction cs with
  | nil => intro d h j hl hlive hv _ _; exact ⟨h, hl, hlive, by simp [hv]⟩
  | cons q rest ih =>
    intro d h j hl hlive hv hj hw
    obtain ⟨hd, hex, hmv, hc, hx⟩ := hlive
    have hq := hw q (List.mem_cons_self _ _)
    simp only [List.length_cons, Nat.cast_add, Nat.cast_one] at hj
    have hwrap : wrapInt64 (h.Meta.Views + 1) = ((j + 1 : Nat) : Int) := by
      rw [hv]; unfold wrapInt64; push_cast; omega
    have hg := get_live d key h q.1 q.2 hl hex (by rw [hwrap, hmv]; push_cast; omega)
      (by rw [hc, hx]; exact hq)
    rw [getCalls, hg]
    obtain ⟨h1, hl1, hlive1, hv1⟩ := ih { d with data := d.data.insert key (h.viewed q.2) }
      (h.viewed q.2) (j + 1) (AList.lookup_insert _)
      ⟨hd, hex, hmv, hc, hx⟩ hwrap (by push_cast; omega)
      (fun p hp => hw p (List.mem_cons_of_mem _ hp))
    refine ⟨h1, hl1, hlive1, ?_⟩
    rw [hv1]
    simp only [List.length_cons]
    push_cast
    omega

theorem getCalls_dead (key : GoString) (cs : List (Time × HyperlogEntry)) :
    ∀ (d : Datastore) (h : Hyperlink), d.data.lookup key = some h →
      h.Meta.Expired = true →
      ∃ h1, (getCalls d key cs).data.lookup key = some h1 ∧ h1.Meta.Expired = true := by
  induction cs with
  | nil => intro d h hl hex; exact ⟨h, hl, hex⟩
  | cons q rest ih =>
    intro d h hl hex
    obtain ⟨h1, hg, _, hex1⟩ := get_expired d key h q.1 q.2 hl (Or.inl hex)
    rw [getCalls, hg]
    exact ih _ h1 (AList.lookup_insert _) hex1

theorem getCalls_over (key : GoString) (data : List Byte) (n : Int) (c : Time)
    (x : Duration) (hn : 0 < n) (hmax : n < 9223372036854775807)
    (cs : List (Time × HyperlogEntry)) :
    ∀ (d : Datastore) (h : Hyperlink) (j : Nat), d.data.lookup key = some h →
      Live data n c x h → h.Meta.Views = j → (j : Int) ≤ n →
      n < (j : Int) + cs.length →
      (∀ q ∈ cs, q.1.unixNano ≤ c.unixNano + x.ns) →
      ∃ h1, (getCalls d key cs).data.lookup key = some h1 ∧ h1.Meta.Expired = true := by
  induction cs with
  | nil => intro d h j _ _ _ hj hlt _; simp at hlt; omega
  | cons q rest ih =>
    intro d h j hl hlive hv hj hlt hw
    obtain ⟨hd, hex, hmv, hc, hx⟩ := hlive
    have hq := hw q (List.mem_cons_self _ _)
    simp only [List.length_cons, Nat.cast_add, Nat.cast_one] at hlt
    have hwrap : wrapInt64 (h.Meta.Views + 1) = ((j + 1 : Nat) : Int) := by
      rw [hv]; unfold wrapInt64; push_cast; omega
    by_cases hjn : (j : Int) < n
    · have hg := get_live d key h q.1 q.2 hl hex (by rw [hwrap, hmv]; push_cast; omega)
        (by rw [hc, hx]; exact hq)
      rw [getCalls, hg]
      exact ih _ (h.viewed q.2) (j + 1) (AList.lookup_insert _)
        ⟨hd, hex, hmv, hc, hx⟩ hwrap (by push_cast; omega) (by push_cast; omega)
        (fun p hp => hw p (List.mem_cons_of_mem _ hp))
    · obtain ⟨h1, hg, _, hex1⟩ := get_expired d key h q.1 q.2 hl
        (Or.inr ⟨by rw [hmv]; exact hn, by rw [hwrap, hmv]; push_cast; omega⟩)
      rw [getCalls, hg]
      exact getCalls_dead key rest _ h1 (AList.lookup_insert _) hex1

theorem firstNonDigit_digits (dw : GoString → Nat) (ds sfx : GoString)
    (hds : ∀ c ∈ ds, 48 ≤ c.toNat ∧ c.toNat ≤ 57)
    (hs : ∀ c rest, sfx = c :: rest →
      (c.toNat < 128 ∧ ¬ (48 ≤ c.toNat ∧ c.toNat ≤ 57)) ∨ (128 ≤ c.toNat ∧ dw sfx = 0)) :
    ∀ fuel, (ds ++ sfx).length ≤ fuel →
      firstNonDigit dw fuel (ds ++ sfx) = if sfx = [] then none else some ds.length := by
  induction ds with
  | nil =>
    intro fuel hf
    cases sfx with
    | nil => cases fuel <;> rfl
    | cons c rest =>
      cases fuel with
      | zero => simp at hf
      | succ fuel =>
        simp only [List.nil_append, firstNonDigit]
        rcases hs c rest rfl with ⟨h1, h2⟩ | ⟨h1, h2⟩
        · simp [h1, h2]
        · have : ¬ c.toNat < 128 := by omega
          simp [this, h2]
  | cons d ds ih =>
    intro fuel hf
    cases fuel with
    | zero => simp at hf
    | succ fuel =>
      have hd := hds d (List.mem_cons_self _ _)
      have h128 : d.toNat < 128 := by omega
      simp only [List.cons_append, firstNonDigit, h128, hd, and_self, if_true]
      show Option.map (fun x => x + 1) (firstNonDigit dw fuel (ds ++ sfx)) = _
      rw [ih (fun c hc => hds c (List.mem_cons_of_mem _ hc)) fuel
        (by simp at hf ⊢; omega)]
      split_ifs <;> simp

theorem ParseFloatInt64_digits (pf : GoString → Int × Option NumError) (ds : GoString)
    (hne : ds ≠ []) (hds : ∀ c ∈ ds, 48 ≤ c.toNat ∧ c.toNat ≤ 57)
    (hv : digitsValue ds < 9007199254740992) :
    ParseFloatInt64 pf ds = (((digitsValue ds : Nat) : Int), none) := by
  unfold ParseFloatInt64
  rw [if_neg hne, if_pos]
  refine ⟨?_, hv⟩
  rw [List.all_eq_true]
  intro c hc
  simpa using hds c hc

theorem specUnitExponent_values :
    specUnitExponent (str "b") = 0 ∧ specUnitExponent (str "byte") = 0 ∧
    specUnitExponent (str "bytes") = 0 ∧
    specUnitExponent (str "k") = 1 ∧ specUnitExponent (str "kb") = 1 ∧
    specUnitExponent (str "kilobyte") = 1 ∧ specUnitExponent (str "kilobytes") = 1 ∧
    specUnitExponent (str "m") = 2 ∧ specUnitExponent (str "mb") = 2 ∧
    specUnitExponent (str "megabyte") = 2 ∧ specUnitExponent (str "megabytes") = 2 ∧
    specUnitExponent (str "g") = 3 ∧ specUnitExponent (str "gb") = 3 ∧
    specUnitExponent (str "gigabyte") = 3 ∧ specUnitExponent (str "gigabytes") = 3 ∧
    specUnitExponent (str "t") = 4 ∧ specUnitExponent (str "tb") = 4 ∧
    specUnitExponent (str "terabyte") = 4 ∧ specUnitExponent (str "terabytes") = 4 := by
  decide

theorem unit_switch (v : Int) (h0 : 0 ≤ v) (hv : v < 9007199254740992) (unit : GoString) :
    (if unit = str "b" ∨ unit = str "byte" ∨ unit = str "bytes" then v
     else if unit = str "k" ∨ unit = str "kb" ∨ unit = str "kilobyte" ∨
        unit = str "kilobytes" then wrapInt64 (v * 2 ^ 10)
     else if unit = str "m" ∨ unit = str "mb" ∨ unit = str "megabyte" ∨
        unit = str "megabytes" then wrapInt64 (v * 2 ^ 20)
     else if unit = str "g" ∨ unit = str "gb" ∨ unit = str "gigabyte" ∨
        unit = str "gigabytes" then wrapInt64 (v * 2 ^ 30)
     else if unit = str "t" ∨ unit = str "tb" ∨ unit = str "terabyte" ∨
        unit = str "terabytes" then wrapInt64 (v * 2 ^ 40)
     else v) = wrapInt64 (v * 1024 ^ specUnitExponent unit) := by
  have hw : wrapInt64 v = v := by unfold wrapInt64; omega
  obtain ⟨b1, b2, b3, k1, k2, k3, k4, m1, m2, m3, m4, g1, g2, g3, g4, t1, t2, t3, t4⟩ :=
    specUnitExponent_values
  split_ifs with hb hk hm hg ht
  · rcases hb with rfl | rfl | rfl
    · rw [b1]; simp [hw]
    · rw [b2]; simp [hw]
    · rw [b3]; simp [hw]
  · rcases hk with rfl | rfl | rfl | rfl
    · rw [k1]; norm_num
    · rw [k2]; norm_num
    · rw [k3]; norm_num
    · rw [k4]; norm_num
  · rcases hm with rfl | rfl | rfl | rfl
    · rw [m1]; norm_num
    · rw [m2]; norm_num
    · rw [m3]; norm_num
    · rw [m4]; norm_num
  · rcases hg with rfl | rfl | rfl | rfl
    · rw [g1]; norm_num
    · rw [g2]; norm_num
    · rw [g3]; norm_num
    · rw [g4]; norm_num
  · rcases ht with rfl | rfl | rfl | rfl
    · rw [t1]; norm_num
    · rw [t2]; norm_num
    · rw [t3]; norm_num
    · rw [t4]; norm_num
  · have he : specUnitExponent unit = 0 := by
      unfold specUnitExponent
      simp [hk, hm, hg, ht]
    rw [he]; simp [hw]

theorem parseSize_digits (lib : Stdlib) (size ds sfx : GoString)
    (htrim : strings.TrimSpace lib.trimFunc size = ds ++ sfx)
    (hne : ds ≠ [])
    (hds : ∀ c ∈ ds, 48 ≤ c.toNat ∧ c.toNat ≤ 57)
    (hv : digitsValue ds < 9007199254740992)
    (hs : ∀ c rest, sfx = c :: rest →
      (c.toNat < 128 ∧ ¬ (48 ≤ c.toNat ∧ c.toNat ≤ 57)) ∨
        (128 ≤ c.toNat ∧ lib.digitWidth sfx = 0)) :
    parseSizeInBytes lib size
      = wrapInt64 ((digitsValue ds : Int) *
          1024 ^ specUnitExponent (strings.ToLower lib.mapLower sfx)) := by
  have hsplit : (match firstNonDigit lib.digitWidth (ds ++ sfx).length (ds ++ sfx) with
      | some i => ((ds ++ sfx).take i, (ds ++ sfx).drop i)
      | none => (ds ++ sfx, [])) = (ds, sfx) := by
    rw [firstNonDigit_digits lib.digitWidth ds sfx hds hs _ (le_refl _)]
    split_ifs with he
    · subst he; simp
    · simp
  unfold parseSizeInBytes
  simp only [htrim, hsplit, ParseFloatInt64_digits lib.parseFloat ds hne hds hv]
  exact unit_switch (digitsValue ds : Int) (by omega) (by exact_mod_cast hv) _

theorem ParseFloatInt64_nonascii (pf : GoString → Int × Option NumError) (c : Byte)
    (xs : GoString) (hc : 128 ≤ c.toNat) :
    ParseFloatInt64 pf (c :: xs) = (0, some .ErrSyntax) := by
  unfold ParseFloatInt64
  have h1 : ¬ (48 ≤ c.toNat ∧ c.toNat ≤ 57) := by omega
  simp [h1, hc]

theorem parseSize_no_digits (lib : Stdlib) (size : GoString)
    (h : ∀ c rest, strings.TrimSpace lib.trimFunc size = c :: rest →
      ¬ (48 ≤ c.toNat ∧ c.toNat ≤ 57)) :
    parseSizeInBytes lib size = 0 := by
  unfold parseSizeInBytes
  cases hs : strings.TrimSpace lib.trimFunc size with
  | nil => simp [firstNonDigit, ParseFloatInt64]
  | cons c rest =>
    have hnd := h c rest hs
    simp only [List.length_cons, firstNonDigit]
    by_cases h128 : c.toNat < 128
    · simp [h128, hnd, ParseFloatInt64]
    · by_cases hw : lib.digitWidth (c :: rest) = 0
      · simp [h128, hw, ParseFloatInt64]
      · simp only [h128, hw, if_false]
        obtain ⟨w, hw1⟩ := Nat.exists_eq_succ_of_ne_zero hw
        cases firstNonDigit lib.digitWidth rest.length
            ((c :: rest).drop (lib.digitWidth (c :: rest))) with
        | none =>
          simp only [Option.map_none']
          rw [ParseFloatInt64_nonascii _ c rest (by omega)]
        | some i =>
          simp only [Option.map_some', hw1, Nat.add_succ, List.take_succ_cons]
          rw [ParseFloatInt64_nonascii _ c _ (by omega)]

theorem ParseFloatInt64_has_nonascii (pf : GoString → Int × Option NumError)
    (s : GoString) (c : Byte) (hc : c ∈ s) (h128 : 128 ≤ c.toNat) :
    ParseFloatInt64 pf s = (0, some .ErrSyntax) := by
  unfold ParseFloatInt64
  have hne : s ≠ [] := List.ne_nil_of_mem hc
  have h1 : ¬ (s.all (fun c => decide (48 ≤ c.toNat ∧ c.toNat ≤ 57)) = true ∧
      digitsValue s < 9007199254740992) := by
    intro h
    have := (List.all_eq_true.mp h.1) c hc
    simp at this
    omega
  have h2 : s.any (fun c => decide (c.toNat ≥ 128)) = true :=
    List.any_eq_true.mpr ⟨c, hc, by simpa using h128⟩
  rw [if_neg hne, if_neg h1, if_pos h2]

theorem firstNonDigit_unicode (dw : GoString → Nat) (c : Byte) (rest : GoString)
    (h128 : 128 ≤ c.toNat) (hw : dw (c :: rest) ≠ 0) (ds : GoString)
    (hds : ∀ c ∈ ds, 48 ≤ c.toNat ∧ c.toNat ≤ 57) :
    ∀ fuel, (ds ++ c :: rest).length ≤ fuel →
      ∀ i, firstNonDigit dw fuel (ds ++ c :: rest) = some i → ds.length < i := by
  induction ds with
  | nil =>
    intro fuel hf i hi
    cases fuel with
    | zero => simp at hf
    | succ fuel =>
      have hn : ¬ c.toNat < 128 := by omega
      simp only [List.nil_append, firstNonDigit, hn, hw, if_false] at hi
      cases hr : firstNonDigit dw fuel ((c :: rest).drop (dw (c :: rest))) with
      | none => rw [hr] at hi; simp at hi
      | some j =>
        rw [hr] at hi
        simp only [Option.map_some', Option.some.injEq] at hi
        simp only [List.length_nil]
        omega
  | cons d ds ih =>
    intro fuel hf i hi
    cases fuel with
    | zero => simp at hf
    | succ fuel =>
      have hd := hds d (List.mem_cons_self _ _)
      have hd128 : d.toNat < 128 := by omega
      simp only [List.cons_append, firstNonDigit, hd128, hd, and_self, if_true] at hi
      cases hr : firstNonDigit dw fuel (ds ++ c :: rest) with
      | none =>
        have hr2 : firstNonDigit dw fuel (ds.append (c :: rest)) = none := hr
        rw [hr2] at hi; simp at hi
      | some j =>
        have hr2 : firstNonDigit dw fuel (ds.append (c :: rest)) = some j := hr
        rw [hr2] at hi
        simp only [Option.map_some', Option.some.injEq] at hi
        have := ih (fun c hc => hds c (List.mem_cons_of_mem _ hc)) fuel
          (by simp at hf ⊢; omega) j hr
        simp only [List.length_cons]
        omega

theorem parseSize_unicode_digit (lib : Stdlib) (size ds : GoString) (c : Byte)
    (rest : GoString)
    (htrim : strings.TrimSpace lib.trimFunc size = ds ++ c :: rest)
    (hds : ∀ c ∈ ds, 48 ≤ c.toNat ∧ c.toNat ≤ 57)
    (h128 : 128 ≤ c.toNat) (hw : lib.digitWidth (c :: rest) ≠ 0) :
    parseSizeInBytes lib size = 0 := by
  have hsplit : ∀ p : GoString × GoString,
      p = (match firstNonDigit lib.digitWidth (ds ++ c :: rest).length (ds ++ c :: rest) with
        | some i => ((ds ++ c :: rest).take i, (ds ++ c :: rest).drop i)
        | none => (ds ++ c :: rest, [])) → c ∈ p.1 := by
    intro p hp
    cases hr : firstNonDigit lib.digitWidth (ds ++ c :: rest).length (ds ++ c :: rest) with
    | none =>
      rw [hr] at hp
      subst hp
      simp
    | some i =>
      rw [hr] at hp
      subst hp
      have hi := firstNonDigit_unicode lib.digitWidth c rest h128 hw ds hds _ (le_refl _) i hr
      simp only
      rw [List.take_append_eq_append_take]
      have : i - ds.length = (i - ds.length - 1) + 1 := by omega
      rw [this, List.take_succ_cons]
      simp
  unfold parseSizeInBytes
  simp only [htrim]
  rw [ParseFloatInt64_has_nonascii _ _ c (hsplit _ rfl) h128]

end Lemmas


section Claims

open memory redis legacy api

/-- C1 (one-shot read, in-memory backend). For every client state, key `k` and
message `m`: `SetMessage(k, m)` succeeds; a `GetMessage(k)` made while
`time.Since(m.Meta.Created) < TTL` then succeeds and returns exactly `m`; and
the `GetMessage(k)` that follows it fails with the not-found error and returns
the zero message, at whatever instant it is made (within TTL in particular). -/
theorem C1_one_shot_read (mc : memoryClient) (k : GoString) (m : Message)
    (now1 now2 : Time)
    (h1 : (time.Since now1 m.Meta.Created).ns < mc.ttl.ns) :
    (mc.SetMessage k m).2 = none ∧
    ((mc.SetMessage k m).1.GetMessage now1 k).2 = (m, none) ∧
    (((mc.SetMessage k m).1.GetMessage now1 k).1.GetMessage now2 k).2
      = (Message.zero, notFound k) := by
  have hk := setMessage_lookup mc k m
  have hf : (time.Since now1 m.Meta.Created).ns < (mc.SetMessage k m).1.ttl.ns := h1
  refine ⟨rfl, ?_, ?_⟩
  · rw [getMessage_fresh _ now1 k m hk hf]
  · rw [getMessage_fresh _ now1 k m hk hf]
    rw [getMessage_absent _ now2 k (AList.lookup_erase k _)]

theorem C1_one_shot_read_witness :
    (time.Since ⟨1060000000000⟩ sampleMessage.Meta.Created).ns < sampleClient.ttl.ns ∧
    (sampleClient.SetMessage sampleKey sampleMessage).2 = none ∧
    ((sampleClient.SetMessage sampleKey sampleMessage).1.GetMessage
        ⟨1060000000000⟩ sampleKey).2 = (sampleMessage, none) ∧
    (((sampleClient.SetMessage sampleKey sampleMessage).1.GetMessage
        ⟨1060000000000⟩ sampleKey).1.GetMessage ⟨1061000000000⟩ sampleKey).2
      = (Message.zero, notFound sampleKey) :=
  ⟨by decide, C1_one_shot_read sampleClient sampleKey sampleMessage
    ⟨1060000000000⟩ ⟨1061000000000⟩ (by decide)⟩

/-- C2 (TTL expiration, in-memory backend). For every client state, key `k` and
instant `now`: if the entry stored at `k` has `now ≥ Meta.Created + TTL`, then
`GetMetadata(k)` and `GetMessage(k)` both fail with the not-found error, return
zero values and leave the state as it is, and they fail just the same on the
state left by a cleanup pass run at any instant `t`; conversely, whenever
either call succeeds there is an entry at `k` with `now < Meta.Created + TTL`. -/
theorem C2_ttl_expiration (mc : memoryClient) (k : GoString) (now : Time) :
    (∀ msg, mc.data.lookup k = some msg →
      msg.Meta.Created.unixNano + mc.ttl.ns ≤ now.unixNano →
        (mc.GetMetadata now k = (mc, Metadata.zero, notFound k) ∧
         mc.GetMessage now k = (mc, Message.zero, notFound k)) ∧
        ∀ t, ((mc.cleanup t).GetMetadata now k).2 = (Metadata.zero, notFound k) ∧
             ((mc.cleanup t).GetMessage now k).2 = (Message.zero, notFound k)) ∧
    (((mc.GetMetadata now k).2.2 = none ∨ (mc.GetMessage now k).2.2 = none) →
      ∃ msg, mc.data.lookup k = some msg ∧
        now.unixNano < msg.Meta.Created.unixNano + mc.ttl.ns) := by
  constructor
  · intro msg hk hexp
    have hs := since_ge_of_ge now msg.Meta.Created mc.ttl hexp
    refine ⟨⟨getMetadata_stale mc now k msg hk hs, getMessage_stale mc now k msg hk hs⟩, ?_⟩
    intro t
    cases hc : (mc.cleanup t).data.lookup k with
    | none =>
      rw [getMetadata_absent _ now k hc, getMessage_absent _ now k hc]
      exact ⟨rfl, rfl⟩
    | some m2 =>
      have hm : mc.data.lookup k = some m2 := cleanup_lookup_some mc t k m2 hc
      rw [hk] at hm
      cases hm
      have hs2 : ¬ (time.Since now msg.Meta.Created).ns < (mc.cleanup t).ttl.ns := hs
      rw [getMetadata_stale _ now k msg hc hs2, getMessage_stale _ now k msg hc hs2]
      exact ⟨rfl, rfl⟩
  · intro hok
    cases hk : mc.data.lookup k with
    | none =>
      rw [getMetadata_absent mc now k hk, getMessage_absent mc now k hk] at hok
      simp [notFound] at hok
    | some msg =>
      refine ⟨msg, rfl, ?_⟩
      by_contra hge
      have hs := since_ge_of_ge now msg.Meta.Created mc.ttl (by omega)
      rw [getMetadata_stale mc now k msg hk hs, getMessage_stale mc now k msg hk hs] at hok
      simp [notFound] at hok

theorem C2_ttl_expiration_witness :
    (sampleClient.SetMessage sampleKey sampleMessage).1.data.lookup sampleKey
      = some sampleMessage ∧
    sampleMessage.Meta.Created.unixNano + sampleClient.ttl.ns ≤ (4600000000000 : Int) ∧
    (sampleClient.SetMessage sampleKey sampleMessage).1.GetMessage ⟨4600000000000⟩ sampleKey
      = ((sampleClient.SetMessage sampleKey sampleMessage).1, Message.zero,
          notFound sampleKey) :=
  ⟨by decide, by decide,
    (((C2_ttl_expiration (sampleClient.SetMessage sampleKey sampleMessage).1 sampleKey
      ⟨4600000000000⟩).1 sampleMessage (by decide) (by decide)).1).2⟩

/-- C3 (metadata non-consumption, in-memory backend). For every client state
and key `k`, `GetMetadata(k)` returns the client exactly as it was, whether it
succeeds or fails; hence after `SetMessage(k, m)` and any run of
`GetMetadata(k)` calls (at arbitrary instants), a `GetMessage(k)` made while
`time.Since(m.Meta.Created) < TTL` succeeds and returns exactly `m`. -/
theorem C3_metadata_non_consumption (mc : memoryClient) (k : GoString) :
    (∀ now, (mc.GetMetadata now k).1 = mc) ∧
    (∀ (m : Message) (nows : List Time) (now : Time),
      (time.Since now m.Meta.Created).ns < mc.ttl.ns →
        ((getMetadataCalls (mc.SetMessage k m).1 k nows).GetMessage now k).2 = (m, none)) := by
  refine ⟨fun now => getMetadata_state mc now k, ?_⟩
  intro m nows now h
  rw [getMetadataCalls_state]
  have hf : (time.Since now m.Meta.Created).ns < (mc.SetMessage k m).1.ttl.ns := h
  rw [getMessage_fresh _ now k m (setMessage_lookup mc k m) hf]

theorem C3_metadata_non_consumption_witness :
    (time.Since ⟨1060000000000⟩ sampleMessage.Meta.Created).ns < sampleClient.ttl.ns ∧
    ((getMetadataCalls (sampleClient.SetMessage sampleKey sampleMessage).1 sampleKey
        [⟨1001000000000⟩, ⟨1002000000000⟩, ⟨999000000000⟩]).GetMessage
        ⟨1060000000000⟩ sampleKey).2 = (sampleMessage, none) :=
  ⟨by decide,
    (C3_metadata_non_consumption sampleClient sampleKey).2 sampleMessage
      [⟨1001000000000⟩, ⟨1002000000000⟩, ⟨999000000000⟩] ⟨1060000000000⟩ (by decide)⟩

/-- C4 (metadata stored unmodified, in-memory backend). For every client
state, key `k` and message `m`: `SetMessage(k, m)` stores `m` itself, and after
it, following any run of earlier `GetMetadata(k)` calls and no consumption,
every `GetMetadata(k)` made while `time.Since(m.Meta.Created) < TTL` succeeds
and returns exactly `m.Meta`, so its `Created` is the instant `m` carried when
it was passed in and any two such calls return the same value. -/
theorem C4_metadata_stored_unmodified (mc : memoryClient) (k : GoString) (m : Message)
    (nows : List Time) (now : Time)
    (h : (time.Since now m.Meta.Created).ns < mc.ttl.ns) :
    (mc.SetMessage k m).1.data.lookup k = some m ∧
    ((getMetadataCalls (mc.SetMessage k m).1 k nows).GetMetadata now k).2 = (m.Meta, none) ∧
    ((getMetadataCalls (mc.SetMessage k m).1 k nows).GetMetadata now k).2.1.Created
      = m.Meta.Created := by
  have hk := setMessage_lookup mc k m
  have hf : (time.Since now m.Meta.Created).ns < (mc.SetMessage k m).1.ttl.ns := h
  rw [getMetadataCalls_state, getMetadata_fresh _ now k m hk hf]
  exact ⟨hk, rfl, rfl⟩

theorem C4_metadata_stored_unmodified_witness :
    (time.Since ⟨2060000000000⟩ sampleFile.Meta.Created).ns < sampleClient.ttl.ns ∧
    (sampleClient.SetMessage sampleKey sampleFile).1.data.lookup sampleKey = some sampleFile ∧
    ((getMetadataCalls (sampleClient.SetMessage sampleKey sampleFile).1 sampleKey
        [⟨2001000000000⟩, ⟨2002000000000⟩]).GetMetadata ⟨2060000000000⟩ sampleKey).2
      = (sampleFile.Meta, none) ∧
    ((getMetadataCalls (sampleClient.SetMessage sampleKey sampleFile).1 sampleKey
        [⟨2001000000000⟩, ⟨2002000000000⟩]).GetMetadata ⟨2060000000000⟩ sampleKey).2.1.Created
      = sampleFile.Meta.Created :=
  ⟨by decide,
    C4_metadata_stored_unmodified sampleClient sampleKey sampleFile
      [⟨2001000000000⟩, ⟨2002000000000⟩] ⟨2060000000000⟩ (by decide)⟩

/-- C5 (content round trip through the external key-value encoding). For
every message `m`, whatever bytes its `Data`, `Filename` and `ContentType`
hold: decoding with `convertRedisHashToMessage` the string-valued hash that
results from writing the fields of `convertMessageToRedisHash(m)` (into an
empty hash or over any earlier hash `h` of the key) gives a message with the
same `Data`, byte for byte, the same `Filename` and the same `ContentType`;
and so does a `GetMessage(k)` that follows a `SetMessage(k, m)` on the remote
server when no command fails and the TTL is at least one second (a shorter
TTL is sent as a timeout of 0 seconds, on which the server deletes the key). -/
theorem C5_content_round_trip (m : Message) :
    (∀ h : GoMap GoString,
      (convertRedisHashToMessage (setFields h (convertMessageToRedisHash m))).Data
        = m.Data ∧
      (convertRedisHashToMessage (setFields h (convertMessageToRedisHash m))).Meta.Filename
        = m.Meta.Filename ∧
      (convertRedisHashToMessage (setFields h (convertMessageToRedisHash m))).Meta.ContentType
        = m.Meta.ContentType) ∧
    (∀ (c : redisClient) (db : Server) (k : GoString), 1000000000 ≤ c.ttl.ns →
      (c.GetMessage (c.SetMessage db none none k m).1 none none k).2.2 = none ∧
      (c.GetMessage (c.SetMessage db none none k m).1 none none k).2.1.Data = m.Data ∧
      (c.GetMessage (c.SetMessage db none none k m).1 none none k).2.1.Meta.Filename
        = m.Meta.Filename ∧
      (c.GetMessage (c.SetMessage db none none k m).1 none none k).2.1.Meta.ContentType
        = m.Meta.ContentType) := by
  constructor
  · intro h
    obtain ⟨hd, _, hf, hc⟩ := field_convert h m
    exact ⟨hd, hf, hc⟩
  · intro c db k httl
    obtain ⟨h0, _, hg⟩ := redis_get_after_set c db k m httl
    obtain ⟨hd, _, hf, hc⟩ := field_convert h0 m
    rw [hg]
    exact ⟨rfl, hd, hf, hc⟩

theorem C5_content_round_trip_witness :
    (1000000000 : Int) ≤ sampleRedis.ttl.ns ∧
    (sampleRedis.GetMessage (sampleRedis.SetMessage ∅ none none sampleKey sampleFile).1
      none none sampleKey).2.1.Data = sampleFile.Data :=
  ⟨by decide,
    ((C5_content_round_trip sampleFile).2 sampleRedis ∅ sampleKey (by decide)).2.1⟩

/-- Counterexample to C6 as stated: the file message created at 2000.5 s is
a valid instant, and the hash written for it decodes to another `Created`
(2000 s); the half second is lost. -/
theorem C6_created_not_preserved :
    sampleFile.Meta.Created.valid ∧
    (convertRedisHashToMessage
        (setFields ∅ (convertMessageToRedisHash sampleFile))).Meta.Created
      ≠ sampleFile.Meta.Created := by
  decide

/-- C6, amended (the external key-value backend keeps `Created` to the whole
second). For every message `m` whose `Created` is an instant a `time.Time` can
hold: the `Created` obtained by decoding the hash that `SetMessage` writes for
`m` (`created` rendered as decimal UNIX seconds) is `m.Meta.Created` rounded
down to a whole second; it is the same instant as `m.Meta.Created` exactly
when `m.Meta.Created` has no sub-second part; and when the TTL is at least
one second (so that the server keeps the key) `GetMetadata` and `GetMessage`
after a `SetMessage` on the remote server, no command failing, report that
rounded instant. -/
theorem C6_created_whole_seconds (c : redisClient) (db : Server) (k : GoString)
    (h : GoMap GoString) (m : Message) (hv : m.Meta.Created.valid) :
    (convertRedisHashToMessage (setFields h (convertMessageToRedisHash m))).Meta.Created
      = ⟨m.Meta.Created.unixNano / 1000000000 * 1000000000⟩ ∧
    ((convertRedisHashToMessage (setFields h (convertMessageToRedisHash m))).Meta.Created
        = m.Meta.Created ↔ m.Meta.Created.unixNano % 1000000000 = 0) ∧
    (1000000000 ≤ c.ttl.ns →
      (c.GetMetadata (c.SetMessage db none none k m).1 none k).2 = none ∧
      (c.GetMetadata (c.SetMessage db none none k m).1 none k).1.Created
        = ⟨m.Meta.Created.unixNano / 1000000000 * 1000000000⟩ ∧
      (c.GetMessage (c.SetMessage db none none k m).1 none none k).2.2 = none ∧
      (c.GetMessage (c.SetMessage db none none k m).1 none none k).2.1.Meta.Created
        = ⟨m.Meta.Created.unixNano / 1000000000 * 1000000000⟩) := by
  rw [created_decoded h m hv]
  refine ⟨rfl, ?_, ?_⟩
  · rw [time_eq_iff]
    constructor
    · intro he
      simp only at he
      omega
    · intro h0
      simp only
      omega
  · intro httl
    obtain ⟨h0, hm, hg⟩ := redis_get_after_set c db k m httl
    rw [hm, hg, created_decoded h0 m hv]
    exact ⟨rfl, rfl, rfl, rfl⟩

theorem C6_created_whole_seconds_witness :
    sampleFile.Meta.Created.valid ∧
    (convertRedisHashToMessage
        (setFields ∅ (convertMessageToRedisHash sampleFile))).Meta.Created
      = ⟨sampleFile.Meta.Created.unixNano / 1000000000 * 1000000000⟩ :=
  ⟨by decide,
    (C6_created_whole_seconds sampleRedis ∅ sampleKey ∅ sampleFile (by decide)).1⟩

/-- C7 (key shape). For every stream of draws of the random source and every
length `N ≥ 0`, `NewKeyFromRandomLetters(N)` returns a string of exactly `N`
bytes, each one a member of `keyLetters` and so one of `a`-`z`, `A`-`Z`,
`0`-`9`; `keyLetters` has 62 characters; `N = 0` gives the empty string; and
`NewMessageKey` of the in-memory and of the Redis backend is this function at
`N = 12`. -/
theorem C7_key_shape (rnd : Nat → Nat) (N : Int) (hN : 0 ≤ N) :
    (∃ key, message.NewKeyFromRandomLetters rnd N = some key ∧
      (key.length : Int) = N ∧
      ∀ c ∈ key, c ∈ message.keyLetters ∧
        ((97 ≤ c.toNat ∧ c.toNat ≤ 122) ∨ (65 ≤ c.toNat ∧ c.toNat ≤ 90) ∨
          (48 ≤ c.toNat ∧ c.toNat ≤ 57))) ∧
    message.keyLetters.length = 62 ∧
    message.NewKeyFromRandomLetters rnd 0 = some [] ∧
    (∀ mc : memoryClient, mc.NewMessageKey rnd = message.NewKeyFromRandomLetters rnd 12) ∧
    (∀ rc : redisClient, rc.NewMessageKey rnd = message.NewKeyFromRandomLetters rnd 12) := by
  refine ⟨?_, by decide, rfl, fun _ => rfl, fun _ => rfl⟩
  unfold message.NewKeyFromRandomLetters
  rw [if_neg (by omega)]
  refine ⟨_, rfl, ?_, ?_⟩
  · rw [List.length_map, List.length_range]
    exact Int.toNat_of_nonneg hN
  · intro c hc
    rw [List.mem_map] at hc
    obtain ⟨i, _, rfl⟩ := hc
    have hm := List.get_mem message.keyLetters
      (message.Intn rnd i message.keyLetters.length) (Nat.mod_lt _ (by decide))
    exact ⟨hm, keyLetters_alnum _ hm⟩

theorem C7_key_shape_witness :
    (0 : Int) ≤ 10 ∧
    ∃ key, message.NewKeyFromRandomLetters (fun i => 7 * i + 3) 10 = some key ∧
      (key.length : Int) = 10 ∧
      ∀ c ∈ key, c ∈ message.keyLetters ∧
        ((97 ≤ c.toNat ∧ c.toNat ≤ 122) ∨ (65 ≤ c.toNat ∧ c.toNat ≤ 90) ∨
          (48 ≤ c.toNat ∧ c.toNat ≤ 57)) :=
  ⟨by decide, (C7_key_shape (fun i => 7 * i + 3) 10 (by decide)).1⟩

/-- Counterexample to C8 as stated: the key `aaaaaaaaaaaa` holds the live text
message; a submit of the file message for which the generator draws that same
key answers 200 with the key, and the next `GetMessage`, within TTL, returns
the file message and not the text message that was there. -/
theorem C8_collision_not_detected :
    ((sampleClient.SetMessage (str "aaaaaaaaaaaa") sampleMessage).1.GetMessage
        ⟨2060000000000⟩ (str "aaaaaaaaaaaa")).2 = (sampleMessage, none) ∧
    ∃ store1,
      api.addMessageHandler (sampleClient.SetMessage (str "aaaaaaaaaaaa") sampleMessage).1
        (fun _ => 0) sampleFile = some (store1, 200, str "aaaaaaaaaaaa") ∧
      (store1.GetMessage ⟨2060000000000⟩ (str "aaaaaaaaaaaa")).2 = (sampleFile, none) ∧
      (store1.GetMessage ⟨2060000000000⟩ (str "aaaaaaaaaaaa")).2 ≠ (sampleMessage, none) :=
  ⟨by decide,
    ((sampleClient.SetMessage (str "aaaaaaaaaaaa") sampleMessage).1.SetMessage
      (str "aaaaaaaaaaaa") sampleFile).1,
    rfl, by decide, by decide⟩

/-- C8, amended (a write does not detect key collisions). On the in-memory
backend and its submit path (`NewMessageKey` followed by `SetMessage`), for
every store state, whatever the generated key `k` holds in it: the write of a
message `m2` succeeds with `SetMessage(k, m2)` and answers 200 with `k`, the
map then holds `m2` at `k`, and a `GetMessage(k)` made while
`time.Since(m2.Meta.Created) < TTL` returns `m2`. -/
theorem C8_write_replaces (store : memoryClient) (rnd : Nat → Nat) (k : GoString)
    (m2 : Message) (now : Time)
    (hk : store.NewMessageKey rnd = some k)
    (hf : (time.Since now m2.Meta.Created).ns < store.ttl.ns) :
    api.addMessageHandler store rnd m2 = some ((store.SetMessage k m2).1, 200, k) ∧
    (store.SetMessage k m2).1.data.lookup k = some m2 ∧
    ((store.SetMessage k m2).1.GetMessage now k).2 = (m2, none) := by
  have hl := setMessage_lookup store k m2
  have hf2 : (time.Since now m2.Meta.Created).ns < (store.SetMessage k m2).1.ttl.ns := hf
  refine ⟨?_, hl, ?_⟩
  · unfold api.addMessageHandler
    rw [hk]
    rfl
  · rw [getMessage_fresh _ now k m2 hl hf2]

theorem C8_write_replaces_witness :
    (sampleClient.SetMessage (str "aaaaaaaaaaaa") sampleMessage).1.NewMessageKey (fun _ => 0)
      = some (str "aaaaaaaaaaaa") ∧
    (time.Since ⟨2060000000000⟩ sampleFile.Meta.Created).ns
      < (sampleClient.SetMessage (str "aaaaaaaaaaaa") sampleMessage).1.ttl.ns ∧
    (((sampleClient.SetMessage (str "aaaaaaaaaaaa") sampleMessage).1.SetMessage
        (str "aaaaaaaaaaaa") sampleFile).1.GetMessage ⟨2060000000000⟩
        (str "aaaaaaaaaaaa")).2 = (sampleFile, none) :=
  ⟨by decide, by decide,
    (C8_write_replaces (sampleClient.SetMessage (str "aaaaaaaaaaaa") sampleMessage).1
      (fun _ => 0) (str "aaaaaaaaaaaa") sampleFile ⟨2060000000000⟩
      (by decide) (by decide)).2.2⟩

/-- C9 (storage factory selection). For every configuration `cfg`,
`storage.New(cfg)` returns a non-nil error together with a nil backend if and
only if the lower-cased `cfg.Client` is neither `memory` nor `redis`, and it
returns a nil error exactly when it returns a backend; `Client = "sqlite"`
gives the unsupported-client error and no backend; `Client = "memory"` gives
the in-memory backend with an empty map, the memory sub-configuration and
`cfg.TTL` as its TTL. -/
theorem C9_factory_selection (mapLower : GoString → GoString) :
    (∀ cfg : storage.Config,
      ((storage.New mapLower cfg).2 ≠ none ∧ (storage.New mapLower cfg).1 = none) ↔
        (strings.ToLower mapLower cfg.Client ≠ str "memory" ∧
         strings.ToLower mapLower cfg.Client ≠ str "redis")) ∧
    (∀ cfg : storage.Config,
      (storage.New mapLower cfg).2 = none ↔ (storage.New mapLower cfg).1 ≠ none) ∧
    (∀ (ttl : Duration) (mem : memory.Config) (red : redis.Config),
      storage.New mapLower ⟨str "sqlite", ttl, mem, red⟩
        = (none, some (str "unsupported storage client: sqlite"))) ∧
    (∀ (ttl : Duration) (mem : memory.Config) (red : redis.Config),
      storage.New mapLower ⟨str "memory", ttl, mem, red⟩
        = (some (.memory { data := ∅, cfg := mem, ttl := ttl }), none)) := by
  refine ⟨?_, ?_, ?_, ?_⟩
  · intro cfg
    unfold storage.New
    split_ifs with h1 h2
    · simp [h1]
    · simp [h2]
    · simp [h1, h2]
  · intro cfg
    unfold storage.New
    split_ifs with h1 h2 <;> simp
  · intro ttl mem red
    unfold storage.New
    simp only [toLower_sqlite]
    rw [if_neg (by decide), if_neg (by decide)]
    rfl
  · intro ttl mem red
    unfold storage.New
    simp only [toLower_memory, if_true]
    rfl

/-- C10 (error propagation in the external key-value `SetMessage`), the code
at the failing input. For every client, server state, key and message, when
`HMSet` succeeds and `Expire` fails with any error `e`, `SetMessage` returns
`nil`, and the hash is on the server with the expiration the key had before
(none for a new key, as on the empty sample server); the claim asks for an
error there. An error of `HMSet`, on the other hand, is returned as it is. -/
theorem C10_expire_error_dropped (c : redisClient) (db : Server) (e : GoString)
    (k : GoString) (m : Message) :
    (c.SetMessage db none (some e) k m).2 = none ∧
    (∃ h0, (c.SetMessage db none (some e) k m).1.lookup k
      = some ⟨setFields h0 (convertMessageToRedisHash m),
          ((db.lookup k).map Entry.expire).getD none⟩) ∧
    ((sampleRedis.SetMessage ∅ none (some (str "EOF")) sampleKey sampleMessage).1.lookup
        sampleKey).map Entry.expire = some none ∧
    (∀ fault2, c.SetMessage db (some e) fault2 k m = (db, some e)) := by
  obtain ⟨h1, h0, h2⟩ := redis_setMessage_fault c db e k m
  exact ⟨h1, ⟨h0, h2⟩, by decide, fun _ => rfl⟩

/-- C11 (prune pass of the in-memory backend). For every client state and
instant `t`, the cleanup pass of `Run` executed at `t` removes every entry
whose age `time.Since(Meta.Created)` is strictly greater than the TTL, leaves
every other entry in the map under the same key with the same message, adds
no key, and does not touch the TTL or the configuration. -/
theorem C11_prune_pass (mc : memoryClient) (t : Time) :
    (∀ k m, mc.data.lookup k = some m →
      (time.Since t m.Meta.Created).ns > mc.ttl.ns → (mc.cleanup t).data.lookup k = none) ∧
    (∀ k m, mc.data.lookup k = some m →
      ¬ (time.Since t m.Meta.Created).ns > mc.ttl.ns →
        (mc.cleanup t).data.lookup k = some m) ∧
    (∀ k, mc.data.lookup k = none → (mc.cleanup t).data.lookup k = none) ∧
    (mc.cleanup t).ttl = mc.ttl ∧ (mc.cleanup t).cfg = mc.cfg := by
  refine ⟨?_, ?_, ?_, rfl, rfl⟩
  · intro k m hk hp
    rw [cleanup_lookup, hk]
    simp only [hp, if_true]
  · intro k m hk hp
    rw [cleanup_lookup, hk]
    simp only [hp, if_false]
  · intro k hk
    rw [cleanup_lookup, hk]

theorem C11_prune_pass_witness :
    boundaryClient.data.lookup sampleKey = some sampleMessage ∧
    (time.Since ⟨4600000000001⟩ sampleMessage.Meta.Created).ns > boundaryClient.ttl.ns ∧
    (boundaryClient.cleanup ⟨4600000000001⟩).data.lookup sampleKey = none ∧
    ¬ (time.Since ⟨4600000000000⟩ sampleMessage.Meta.Created).ns > boundaryClient.ttl.ns ∧
    (boundaryClient.cleanup ⟨4600000000000⟩).data.lookup sampleKey = some sampleMessage :=
  ⟨by decide, by decide,
    (C11_prune_pass boundaryClient ⟨4600000000001⟩).1 sampleKey sampleMessage
      (by decide) (by decide),
    by decide,
    (C11_prune_pass boundaryClient ⟨4600000000000⟩).2.1 sampleKey sampleMessage
      (by decide) (by decide)⟩

/-- Counterexample to C12 as stated: the sample client has a TTL of one hour
and holds one message created at 1000 s. At `t = 4600 s`, where
`t = Meta.Created + TTL`, the entry is expired (`GetMetadata` reports not
found), yet after the cleanup pass at `t` it is still in the map and the entry
count is 1, not 0. -/
theorem C12_boundary_entry_kept :
    sampleMessage.Meta.Created.unixNano + boundaryClient.ttl.ns ≤ (4600000000000 : Int) ∧
    (boundaryClient.GetMetadata ⟨4600000000000⟩ sampleKey).2
      = (Metadata.zero, memory.notFound sampleKey) ∧
    (boundaryClient.cleanup ⟨4600000000000⟩).data.lookup sampleKey = some sampleMessage ∧
    (boundaryClient.cleanup ⟨4600000000000⟩).data.entries.length = 1 := by
  decide

/-- C12, amended (the pruner reclaims every entry older than the TTL). For
every client state and instant `t`, after one cleanup pass at `t` no entry
whose age `time.Since(Meta.Created)` at `t` is strictly greater than the TTL
remains in the map: every entry that remains has an age of at most the TTL,
and it was in the map before with the same message; in particular, if every
entry has an age strictly greater than the TTL at `t`, the entry count after
the pass is 0. -/
theorem C12_pruner_reclaims_older (mc : memoryClient) (t : Time) :
    (∀ k m, (mc.cleanup t).data.lookup k = some m →
      ¬ (time.Since t m.Meta.Created).ns > mc.ttl.ns ∧ mc.data.lookup k = some m) ∧
    ((∀ k m, mc.data.lookup k = some m → (time.Since t m.Meta.Created).ns > mc.ttl.ns) →
      (mc.cleanup t).data.entries.length = 0) := by
  constructor
  · intro k m hc
    have hm := cleanup_lookup_some mc t k m hc
    refine ⟨?_, hm⟩
    intro hp
    rw [cleanup_lookup, hm] at hc
    simp only [hp, if_true] at hc
    cases hc
  · intro hall
    have he : (mc.cleanup t).data.entries = [] := by
      apply entries_eq_nil_of_lookup
      intro k
      rw [cleanup_lookup]
      cases hk : mc.data.lookup k with
      | none => rfl
      | some m => simp only [hall k m hk, if_true]
    rw [he]
    rfl

theorem C12_pruner_reclaims_older_witness :
    (boundaryClient.cleanup ⟨4600000000001⟩).data.entries.length = 0 ∧
    (time.Since ⟨4600000000001⟩ sampleMessage.Meta.Created).ns > boundaryClient.ttl.ns :=
  ⟨(C12_pruner_reclaims_older boundaryClient ⟨4600000000001⟩).2 (by
      intro k m hk
      have hm : m = sampleMessage := by
        by_cases hks : k = sampleKey
        · subst hks
          have h2 : boundaryClient.data.lookup sampleKey = some sampleMessage := by decide
          rw [h2] at hk
          exact (Option.some.inj hk).symm
        · have h2 : boundaryClient.data.lookup k = none := by
            show (AList.insert sampleKey sampleMessage (∅ : GoMap Message)).lookup k = none
            rw [AList.lookup_insert_ne hks]
            rfl
          rw [h2] at hk
          cases hk
      subst hm
      decide),
    by decide⟩

/-- C13 (pruning is observationally invisible, in-memory backend). For every
client state, key `k` and instants `t ≤ t'`: `GetMetadata(k)` at `t'` returns
the same metadata and the same error, and `GetMessage(k)` at `t'` the same
message and the same error, on the state left by a cleanup pass at `t` as on
the state without that pass. -/
theorem C13_pruning_invisible (mc : memoryClient) (k : GoString) (t t' : Time)
    (h : t.unixNano ≤ t'.unixNano) :
    ((mc.cleanup t).GetMetadata t' k).2 = (mc.GetMetadata t' k).2 ∧
    ((mc.cleanup t).GetMessage t' k).2 = (mc.GetMessage t' k).2 := by
  have hc := cleanup_lookup mc t k
  cases hk : mc.data.lookup k with
  | none =>
    rw [hk] at hc
    rw [getMetadata_absent _ t' k hc, getMessage_absent _ t' k hc,
      getMetadata_absent _ t' k hk, getMessage_absent _ t' k hk]
    exact ⟨rfl, rfl⟩
  | some m =>
    rw [hk] at hc
    by_cases hp : (time.Since t m.Meta.Created).ns > mc.ttl.ns
    · simp only [hp, if_true] at hc
      have hm := since_mono t t' m.Meta.Created h
      have hs : ¬ (time.Since t' m.Meta.Created).ns < mc.ttl.ns := by omega
      rw [getMetadata_absent _ t' k hc, getMessage_absent _ t' k hc,
        getMetadata_stale _ t' k m hk hs, getMessage_stale _ t' k m hk hs]
      exact ⟨rfl, rfl⟩
    · simp only [hp, if_false] at hc
      by_cases hf : (time.Since t' m.Meta.Created).ns < mc.ttl.ns
      · have hf2 : (time.Since t' m.Meta.Created).ns < (mc.cleanup t).ttl.ns := hf
        rw [getMetadata_fresh _ t' k m hc hf2, getMessage_fresh _ t' k m hc hf2,
          getMetadata_fresh _ t' k m hk hf, getMessage_fresh _ t' k m hk hf]
        exact ⟨rfl, rfl⟩
      · have hf2 : ¬ (time.Since t' m.Meta.Created).ns < (mc.cleanup t).ttl.ns := hf
        rw [getMetadata_stale _ t' k m hc hf2, getMessage_stale _ t' k m hc hf2,
          getMetadata_stale _ t' k m hk hf, getMessage_stale _ t' k m hk hf]
        exact ⟨rfl, rfl⟩

theorem C13_pruning_invisible_witness :
    (4600000000001 : Int) ≤ 4700000000000 ∧
    ((boundaryClient.cleanup ⟨4600000000001⟩).GetMessage ⟨4700000000000⟩ sampleKey).2
      = (boundaryClient.GetMessage ⟨4700000000000⟩ sampleKey).2 ∧
    (boundaryClient.GetMessage ⟨4700000000000⟩ sampleKey).2
      = (Message.zero, memory.notFound sampleKey) :=
  ⟨by decide,
    (C13_pruning_invisible boundaryClient sampleKey ⟨4600000000001⟩ ⟨4700000000000⟩
      (by decide)).2,
    by decide⟩

/-- C14 (a failed `GetMessage` changes nothing, in-memory backend). For every
client state, instant and key `k`: if `GetMessage(k)` returns an error, then
`k` is absent or its entry is expired (`time.Since(Created) < ttl` is false),
the client afterwards is exactly the client before (the expired entry is
still in the map), the error is the not-found error, and the returned message
is the zero message, whose `Data` is empty. -/
theorem C14_failed_get_changes_nothing (mc : memoryClient) (now : Time) (k : GoString)
    (hfail : (mc.GetMessage now k).2.2 ≠ none) :
    (mc.GetMessage now k).1 = mc ∧
    (mc.GetMessage now k).2 = (Message.zero, memory.notFound k) ∧
    Message.zero.Data = [] ∧
    (mc.data.lookup k = none ∨
      ∃ m, mc.data.lookup k = some m ∧
        ¬ (time.Since now m.Meta.Created).ns < mc.ttl.ns) := by
  obtain ⟨h1, h2, h3⟩ := getMessage_failed mc now k hfail
  exact ⟨h1, h2, rfl, h3⟩

theorem C14_failed_get_changes_nothing_witness :
    (boundaryClient.GetMessage ⟨4600000000000⟩ sampleKey).2.2 ≠ none ∧
    (boundaryClient.GetMessage ⟨4600000000000⟩ sampleKey).1 = boundaryClient ∧
    (boundaryClient.GetMessage ⟨4600000000000⟩ sampleKey).1.data.lookup sampleKey
      = some sampleMessage :=
  ⟨by decide,
    (C14_failed_get_changes_nothing boundaryClient ⟨4600000000000⟩ sampleKey
      (by decide)).1,
    by decide⟩

/-- C15 (legacy `Datastore.PurgeExpiredKeys`), the code at the failing input
and on every state. The sample datastore keeps expired keys for 24 h and
holds one hyperlink with data `hello`, created at 1000 s, expiring after 1 h.
After `PurgeExpiredKeys` at 8200 s, one hour past the expiry instant, the
hyperlink is kept and marked `Expired`, but its `Data` is still `hello`: the
branch that clears it asks for `!hasExpired()`, and `hasExpired()` is true
whenever the expiry instant has passed. For every datastore state with
`ExpiredTTL ≥ 0` and every stored hyperlink: (i) if its expiry instant
`Created + ExpireIn` lies more than `ExpiredTTL` before `t` it is removed;
(ii) if the expiry instant has passed by at most `ExpiredTTL` it is kept with
`Expired` set and every other field, `Data` included, as it was; (iii) if the
expiry instant has not passed it is unchanged. -/
theorem C15_purge_keeps_data :
    ((legacyStore.PurgeExpiredKeys ⟨8200000000000⟩).1.data.lookup legacyKey
        = some { legacyLink with Meta := { legacyLink.Meta with Expired := true } } ∧
     { legacyLink with Meta := { legacyLink.Meta with Expired := true } }.Data
        = str "hello") ∧
    (∀ (d : Datastore) (t : Time) (k : GoString) (h : Hyperlink),
      0 ≤ d.config.ExpiredTTL.ns → d.data.lookup k = some h →
      (h.Meta.Created.unixNano + h.Meta.ExpireIn.ns + d.config.ExpiredTTL.ns < t.unixNano →
        (d.PurgeExpiredKeys t).1.data.lookup k = none) ∧
      (t.unixNano ≤ h.Meta.Created.unixNano + h.Meta.ExpireIn.ns + d.config.ExpiredTTL.ns →
        h.Meta.Created.unixNano + h.Meta.ExpireIn.ns < t.unixNano →
        (d.PurgeExpiredKeys t).1.data.lookup k
          = some { h with Meta := { h.Meta with Expired := true } }) ∧
      (t.unixNano ≤ h.Meta.Created.unixNano + h.Meta.ExpireIn.ns →
        (d.PurgeExpiredKeys t).1.data.lookup k = some h)) := by
  refine ⟨⟨by decide, by decide⟩, ?_⟩
  intro d t k h h0 hl
  rw [purge_lookup, hl, Option.some_bind]
  refine ⟨?_, ?_, ?_⟩
  · intro ho
    exact purgeEntry_old d.config t h h0 ho
  · intro hr hp
    exact purgeEntry_recent d.config t h h0 hr hp
  · intro hf
    exact purgeEntry_future d.config t h h0 hf

/-- C16 (key isolation, in-memory backend). For every client state, distinct
keys `k` and `k'`, message `m` and instant: `SetMessage(k, m)` returns `nil`,
stores `m` at `k` (whatever was there) and leaves the entry at `k'` as it was;
`GetMessage(k)`, successful or not, leaves the entry at `k'` as it was; a
successful `GetMessage(k)` leaves no entry at `k`, and a failed one leaves the
entry at `k` as it was. -/
theorem C16_key_isolation (mc : memoryClient) (k k' : GoString) (hne : k' ≠ k)
    (m : Message) (now : Time) :
    (mc.SetMessage k m).2 = none ∧
    (mc.SetMessage k m).1.data.lookup k = some m ∧
    (mc.SetMessage k m).1.data.lookup k' = mc.data.lookup k' ∧
    (mc.GetMessage now k).1.data.lookup k' = mc.data.lookup k' ∧
    ((mc.GetMessage now k).2.2 = none → (mc.GetMessage now k).1.data.lookup k = none) ∧
    ((mc.GetMessage now k).2.2 ≠ none → (mc.GetMessage now k).1.data.lookup k
      = mc.data.lookup k) := by
  refine ⟨rfl, setMessage_lookup mc k m, ?_, ?_, ?_, ?_⟩
  · simp [memoryClient.SetMessage, AList.lookup_insert_ne hne]
  · cases hk : mc.data.lookup k with
    | none => rw [getMessage_absent mc now k hk]
    | some m0 =>
      by_cases hf : (time.Since now m0.Meta.Created).ns < mc.ttl.ns
      · rw [getMessage_fresh mc now k m0 hk hf]
        exact AList.lookup_erase_ne hne
      · rw [getMessage_stale mc now k m0 hk hf]
  · intro hok
    cases hk : mc.data.lookup k with
    | none =>
      rw [getMessage_absent mc now k hk] at hok
      simp [memory.notFound] at hok
    | some m0 =>
      by_cases hf : (time.Since now m0.Meta.Created).ns < mc.ttl.ns
      · rw [getMessage_fresh mc now k m0 hk hf]
        exact AList.lookup_erase _ _
      · rw [getMessage_stale mc now k m0 hk hf] at hok
        simp [memory.notFound] at hok
  · intro hfail
    rw [(getMessage_failed mc now k hfail).1]

theorem C16_key_isolation_witness :
    str "other" ≠ sampleKey ∧
    ((boundaryClient.SetMessage (str "other") sampleFile).1.GetMessage
        ⟨2060000000000⟩ (str "other")).1.data.lookup sampleKey = some sampleMessage ∧
    (boundaryClient.SetMessage (str "other") sampleFile).1.data.lookup sampleKey
      = some sampleMessage :=
  ⟨by decide,
    ((C16_key_isolation (boundaryClient.SetMessage (str "other") sampleFile).1
      (str "other") sampleKey (by decide) sampleFile ⟨2060000000000⟩).2.2.2.1).trans
      (by decide),
    by decide⟩

/-- Counterexample to C17 as stated: the input `12` followed by the
Arabic-Indic digit three (U+0663, bytes `D9 A3`) is, after trimming, the run
of ASCII digits `12` followed by a suffix that is none of the units, so the
claim gives `12 * 1024^0 = 12`. The code gives 0: `unicode.IsDigit` accepts
that rune, the loop never splits, and `ParseFloat` rejects the whole string. -/
theorem C17_unicode_digit_suffix :
    strings.TrimSpace sampleLib.trimFunc (str "12" ++ [217, 163]) = str "12" ++ [217, 163] ∧
    digitsValue (str "12") = 12 ∧
    wrapInt64 ((digitsValue (str "12") : Int) *
      1024 ^ specUnitExponent (strings.ToLower sampleLib.mapLower [217, 163])) = 12 ∧
    parseSizeInBytes sampleLib (str "12" ++ [217, 163]) = 0 := by
  decide

/-- C17, amended (`parseSizeInBytes` reads a size with a binary unit). For
every input that, after `strings.TrimSpace`, is a non-empty run `ds` of ASCII
decimal digits with value `v < 2^53` followed by a suffix `sfx`: if `sfx` is
empty or begins with a rune that `unicode.IsDigit` rejects (an ASCII byte that
is no digit, or a rune outside ASCII that is no Unicode digit), the result is
`v * 1024^e` wrapped to a signed 64-bit integer, where `e` is read off
`strings.ToLower(sfx)`: 1 for k/kb/kilobyte/kilobytes, 2 for
m/mb/megabyte/megabytes, 3 for g/gb/gigabyte/gigabytes, 4 for
t/tb/terabyte/terabytes, and 0 for b/byte/bytes, the empty suffix and every
other suffix; if `sfx` begins with a Unicode decimal digit outside ASCII the
result is 0; and an input that, after trimming, does not begin with an ASCII
digit gives 0. -/
theorem C17_parse_size (lib : Stdlib) (size ds sfx : GoString)
    (htrim : strings.TrimSpace lib.trimFunc size = ds ++ sfx)
    (hne : ds ≠ [])
    (hds : ∀ c ∈ ds, 48 ≤ c.toNat ∧ c.toNat ≤ 57)
    (hv : digitsValue ds < 9007199254740992) :
    (noLeadingDigit lib.digitWidth sfx →
      parseSizeInBytes lib size
        = wrapInt64 ((digitsValue ds : Int) *
            1024 ^ specUnitExponent (strings.ToLower lib.mapLower sfx))) ∧
    ((∃ c rest, sfx = c :: rest ∧ 128 ≤ c.toNat ∧ lib.digitWidth sfx ≠ 0) →
      parseSizeInBytes lib size = 0) ∧
    (∀ other : GoString,
      (∀ c rest, strings.TrimSpace lib.trimFunc other = c :: rest →
        ¬ (48 ≤ c.toNat ∧ c.toNat ≤ 57)) →
      parseSizeInBytes lib other = 0) := by
  refine ⟨?_, ?_, ?_⟩
  · intro hs
    refine parseSize_digits lib size ds sfx htrim hne hds hv ?_
    intro c rest he
    subst he
    exact hs
  · rintro ⟨c, rest, rfl, h128, hw⟩
    exact parseSize_unicode_digit lib size ds c rest htrim hds h128 hw
  · intro other h
    exact parseSize_no_digits lib other h

theorem C17_parse_size_witness :
    strings.TrimSpace sampleLib.trimFunc (str " 12Kb ") = str "12" ++ str "Kb" ∧
    digitsValue (str "12") < 9007199254740992 ∧
    parseSizeInBytes sampleLib (str " 12Kb ") = 12288 :=
  ⟨by decide, by decide,
    ((C17_parse_size sampleLib (str " 12Kb ") (str "12") (str "Kb") (by decide)
      (by decide) (by decide) (by decide)).1 (by decide)).trans (by decide)⟩

/-- C18 (view limit of the legacy `Datastore`). For every hyperlink that
`handleAddHyperlink` adds at `t0` with `MaxViews = n` and `ExpireIn = x`, and
every run `cs` of `Get` calls on its key made no later than the expiry instant
`t0 + x`: when `n > 0`, a further `Get` made no later than the expiry instant
succeeds and returns the hyperlink with its data as long as fewer than `n`
calls came before it, and once `n` calls came before it a further `Get` (at
any instant) fails as expired, the stored `Data` is then empty and `Expired`
set, and `Info` fails as expired at every instant afterwards; when `n ≤ 0`
every `Get` made no later than the expiry instant succeeds with the data.
`n` is an `int`, and the calls are as many as a Go slice (the log of the
hyperlink, one entry per call) can hold. -/
theorem C18_view_limit (db : Datastore) (rnd : Nat → Nat) (fuel : Nat) (t0 : Time)
    (n : Int) (x : Duration) (body : Upload) (client : HyperlogEntry)
    (d1 : Datastore) (key : GoString)
    (hadd : handleAddHyperlink db rnd fuel t0 n x body client = some (d1, key)) :
    (0 < n → n ≤ 9223372036854775807 →
      ∀ (cs : List (Time × HyperlogEntry)) (now : Time) (e : HyperlogEntry),
        (∀ q ∈ cs, q.1.unixNano ≤ t0.unixNano + x.ns) →
        ((cs.length : Int) < n → now.unixNano ≤ t0.unixNano + x.ns →
          ∃ h, ((getCalls d1 key cs).Get now key e).2 = (h, none) ∧
            h.Data = body.data ∧ h.Meta.Expired = false ∧
            h.Meta.Views = (cs.length : Int) + 1) ∧
        (n ≤ (cs.length : Int) → (cs.length : Int) + 2 ≤ 9223372036854775807 →
          ((getCalls d1 key cs).Get now key e).2
            = (Hyperlink.zero, some (key ++ str " has expired")) ∧
          (∃ h, ((getCalls d1 key cs).Get now key e).1.data.lookup key = some h ∧
            h.Data = [] ∧ h.Meta.Expired = true) ∧
          ∀ t, (((getCalls d1 key cs).Get now key e).1.Info t key).2
            = (HyperlinkMetadata.zero, some (key ++ str " has expired")))) ∧
    (n ≤ 0 →
      ∀ (cs : List (Time × HyperlogEntry)) (now : Time) (e : HyperlogEntry),
        (∀ q ∈ cs, q.1.unixNano ≤ t0.unixNano + x.ns) →
        now.unixNano ≤ t0.unixNano + x.ns →
        ∃ h, ((getCalls d1 key cs).Get now key e).2 = (h, none) ∧
          h.Data = body.data ∧ h.Meta.Expired = false) := by
  obtain ⟨h0, hl0, hlive0, hv0⟩ := handleAdd_live db rnd fuel t0 n x body client d1 key hadd
  constructor
  · intro hn hmax cs now e hw
    constructor
    · intro hlt hnow
      obtain ⟨h1, hl1, ⟨hd, hex, hmv, hc, hx⟩, hv1⟩ :=
        getCalls_limited key body.data n t0 x hmax cs d1 h0 0 hl0 hlive0
          (by simpa using hv0) (by push_cast; omega) hw
      have hwrap : wrapInt64 (h1.Meta.Views + 1) = (cs.length : Int) + 1 := by
        rw [hv1]; unfold wrapInt64; push_cast; omega
      have hg := get_live _ key h1 now e hl1 hex (by rw [hwrap, hmv]; omega)
        (by rw [hc, hx]; exact hnow)
      rw [hg]
      exact ⟨h1.viewed e, rfl, hd, hex, hwrap⟩
    · intro hge hlen
      have hdead : ∃ h1, (getCalls d1 key cs).data.lookup key = some h1 ∧
          (h1.Meta.Expired = true ∨
            (h1.Meta.MaxViews > 0 ∧ wrapInt64 (h1.Meta.Views + 1) > h1.Meta.MaxViews)) := by
        by_cases heq : (cs.length : Int) = n
        · obtain ⟨h1, hl1, ⟨_, _, hmv, _, _⟩, hv1⟩ :=
            getCalls_limited key body.data n t0 x hmax cs d1 h0 0 hl0 hlive0
              (by simpa using hv0) (by push_cast; omega) hw
          refine ⟨h1, hl1, Or.inr ⟨by rw [hmv]; exact hn, ?_⟩⟩
          rw [hv1, hmv]
          unfold wrapInt64
          push_cast
          omega
        · obtain ⟨h1, hl1, hex1⟩ :=
            getCalls_over key body.data n t0 x hn (by omega) cs d1 h0 0 hl0 hlive0
              (by simpa using hv0) (by push_cast; omega) (by push_cast; omega) hw
          exact ⟨h1, hl1, Or.inl hex1⟩
      obtain ⟨h1, hl1, hx1⟩ := hdead
      obtain ⟨h2, hg, hd2, hex2⟩ := get_expired _ key h1 now e hl1 hx1
      rw [hg]
      refine ⟨rfl, ⟨h2, AList.lookup_insert _, hd2, hex2⟩, ?_⟩
      intro t
      exact info_dead _ key h2 t (AList.lookup_insert _) hex2
  · intro hn cs now e hw hnow
    obtain ⟨h1, hl1, ⟨hd, hex, hmv, hc, hx⟩⟩ :=
      getCalls_unlimited key body.data n t0 x hn cs d1 h0 hl0 hlive0 hw
    have hg := get_live _ key h1 now e hl1 hex (by rw [hmv]; omega)
      (by rw [hc, hx]; exact hnow)
    rw [hg]
    exact ⟨h1.viewed e, rfl, hd, hex⟩

theorem C18_view_limit_witness :
    handleAddHyperlink (NewDatastore legacyConfig) (fun i => i) 1 ⟨1000000000000⟩ 2
        ⟨3600000000000, by decide⟩ (.form (str "hello")) legacyVisitor
      = some (legacyStore, legacyKey) ∧
    ((getCalls legacyStore legacyKey
        [(⟨1001000000000⟩, legacyVisitor), (⟨1002000000000⟩, legacyVisitor)]).Get
        ⟨1003000000000⟩ legacyKey legacyVisitor).2
      = (Hyperlink.zero, some (legacyKey ++ str " has expired")) ∧
    ((getCalls legacyStore legacyKey [(⟨1001000000000⟩, legacyVisitor)]).Get
        ⟨1002000000000⟩ legacyKey legacyVisitor).2.1.Data = str "hello" :=
  ⟨rfl,
    (((C18_view_limit (NewDatastore legacyConfig) (fun i => i) 1 ⟨1000000000000⟩ 2
      ⟨3600000000000, by decide⟩ (.form (str "hello")) legacyVisitor legacyStore legacyKey
      rfl).1 (by decide) (by decide)
      [(⟨1001000000000⟩, legacyVisitor), (⟨1002000000000⟩, legacyVisitor)]
      ⟨1003000000000⟩ legacyVisitor (by decide)).2 (by decide) (by decide)).1,
    by decide⟩

end Claims

end hyperlink
